import Mathlib

/-!
# Jeti EX Bus receiver driver (`src/jetiex.c`)

A shallow embedding of the driver: the checksum engine (`crc_ccitt_update`,
`getcrc16z`), the byte-at-a-time frame assembler (`jetiDataReceive`), the
poll operation with its baud negotiator (`jetiFrameComplete`) and the channel
extractor (`jetiReadRawRC`).

Machine integers are natural numbers; every place where C truncates
(parameter passing, assignment to a narrower object, casts) is an explicit
`% 2^w`.  Intermediate results that C computes in `int` (32 bits, after
integer promotion) stay far below `2^31` and are left untruncated.

The frame buffer `jetiFrame` is a map from index to byte; only the indices
below `JETI_FRAME_MAXLEN` exist in the C object.  A store outside that range
is undefined behaviour in C, and the embedding of `jetiDataReceive` returns
`none` there.
-/

namespace JetiEx

/-! ## Constants -/

abbrev JETI_BAUD_SLOW : Nat := 125000
abbrev JETI_BAUD_FAST : Nat := 250000
abbrev JETI_RCFRAME_BEGIN : Nat := 0x3E
abbrev JETI_PACKET_RC : Nat := 0x31
abbrev JETI_FRAME_MINLEN : Nat := 7
abbrev JETI_FRAME_MAXLEN : Nat := 70
abbrev JETI_NUM_CHANNELS : Nat := 16

/-! ## Checksum engine -/

/-- The per-byte checksum update of `jetiex.c` lines 41-51.
`crc` is a `uint16_t` parameter and `data` a `uint8_t` parameter, so both are
truncated on entry; the two `^=` on `data` truncate to 8 bits, the result is
assigned to the `uint16_t ret_val`. -/
def crc_ccitt_update (crc data : Nat) : Nat :=
  let crc := crc % 65536
  let data := data % 256
  -- data ^= (uint8_t)crc & (uint8_t)0xFF;
  let data := (data ^^^ ((crc % 256) &&& (0xFF % 256))) % 256
  -- data ^= data << 4;
  let data := (data ^^^ (data <<< 4)) % 256
  -- ret_val = ((((uint16_t)data << 8) | ((crc & 0xFF00) >> 8))
  --            ^ (uint8_t)(data >> 4) ^ ((uint16_t)data << 3));
  ((((data % 65536) <<< 8) ||| ((crc &&& 0xFF00) >>> 8))
      ^^^ ((data >>> 4) % 256) ^^^ ((data % 65536) <<< 3)) % 65536

/-- The `while(len--)` loop of `getcrc16z`: `p` is the memory seen through the
pointer (`p 0` is `p[0]`, and `p++` shifts the view by one), `len` the
remaining count, `crc16_data` the running checksum. -/
def getcrc16z_loop (p : Nat → Nat) : Nat → Nat → Nat
  | 0, crc16_data => crc16_data
  | len + 1, crc16_data =>
      getcrc16z_loop (fun i => p (i + 1)) len (crc_ccitt_update crc16_data (p 0))

/-- The checksum of `len` bytes at `p` (`jetiex.c` lines 53-63); `len` is a
`uint16_t` parameter. -/
def getcrc16z (p : Nat → Nat) (len : Nat) : Nat :=
  getcrc16z_loop p (len % 65536) 0

/-- A byte sequence laid out in memory: index `i` holds the `i`-th byte, and
`0` past the end. -/
def memOf (l : List Nat) : Nat → Nat := fun i => l.getD i 0

/-- The transform written the way section 4.2 of the specification words it:
`d1 = data XOR (low byte of crc)`, `d2 = d1 XOR (d1 << 4 truncated to 8 bits)`,
`new_crc = ((d2 << 8) OR (high byte of crc)) XOR (low byte of (d2 >> 4)) XOR
(d2 << 3)`, as a 16-bit value. -/
def specUpdate (crc data : Nat) : Nat :=
  let d1 := data ^^^ (crc % 256)
  let d2 := d1 ^^^ ((d1 <<< 4) % 256)
  (((d2 <<< 8) ||| (crc / 256 % 256)) ^^^ ((d2 >>> 4) % 256) ^^^ (d2 <<< 3)) % 65536

/-- The part of the update that depends on the mixed byte `x = data XOR (low
byte of crc)` only; used to state the normal form of the update. -/
def crcT (x : Nat) : Nat :=
  let d := (x ^^^ (x <<< 4)) % 256
  (d <<< 8) ^^^ (d >>> 4) ^^^ (d <<< 3)

/-- The checksum of a byte sequence as the specification words it: the fold of
the update from an initial value of zero, left to right. -/
def specChecksum (l : List Nat) : Nat := l.foldl specUpdate 0

/-! ## Driver state -/

/-- The file-scope objects of `jetiex.c` (lines 28-33), the function-local
static `jetiFrameLen` of `jetiDataReceive` (line 102), and the two external
objects the driver touches: `failsafeCnt` and the configured rate of the
receiver port, `core.rcvrport->baudRate`. -/
structure State where
  /-- `static bool jetiFrameBegun` -/
  jetiFrameBegun : Bool
  /-- `static uint8_t jetiFramePos` -/
  jetiFramePos : Nat
  /-- `static uint8_t jetiFrame[JETI_FRAME_MAXLEN]` -/
  jetiFrame : Nat → Nat
  /-- `static bool jetiRcFrameComplete` -/
  jetiRcFrameComplete : Bool
  /-- `static bool jetiBaudValid` -/
  jetiBaudValid : Bool
  /-- `static uint16_t jetiJunkChars` -/
  jetiJunkChars : Nat
  /-- `static uint8_t jetiFrameLen` -/
  jetiFrameLen : Nat
  /-- `extern int16_t failsafeCnt` -/
  failsafeCnt : Int
  /-- `core.rcvrport->baudRate` -/
  baudRate : Nat

/-- The state after static initialisation and `jetiInit`: every static object
is zero and the line is open at `JETI_BAUD_SLOW`. -/
def initState : State where
  jetiFrameBegun := false
  jetiFramePos := 0
  jetiFrame := fun _ => 0
  jetiRcFrameComplete := false
  jetiBaudValid := false
  jetiJunkChars := 0
  jetiFrameLen := 0
  failsafeCnt := 0
  baudRate := JETI_BAUD_SLOW

/-- A Seeking state with leftovers of earlier traffic: an unconsumed completion
flag, a cursor and a declared length from an abandoned attempt, some junk. -/
def staleSeeking : State :=
  { initState with
    jetiRcFrameComplete := true
    jetiFramePos := 33
    jetiFrameLen := 200
    jetiJunkChars := 5 }

/-- A state whose buffer holds the tick count 2048 (`0x00, 0x08`, low byte
first) at the offset of channel 0 and zeros elsewhere. -/
def tickState : State :=
  { initState with jetiFrame := fun i => if i = 7 then 0x08 else 0x00 }

/-! ## Frame assembler -/

/-- Lines 127-139 of `jetiDataReceive`: the store `jetiFrame[jetiFramePos++] =
(uint8_t)c`, then the end-of-frame test.  A store at an index that the array
does not have yields `none`.  When the test `jetiFramePos == jetiFrameLen`
succeeds after an in-range store, the checksum run reads `jetiFrameLen =
jetiFramePos ≤ 70` bytes, all inside the array. -/
def jetiStore (s : State) (c : Nat) : Option State :=
  if s.jetiFramePos < JETI_FRAME_MAXLEN then
    -- jetiFrame[jetiFramePos++] = (uint8_t)c;
    let s := { s with
      jetiFrame := fun i => if i = s.jetiFramePos then c % 256 else s.jetiFrame i
      jetiFramePos := (s.jetiFramePos + 1) % 256 }
    if s.jetiFramePos = s.jetiFrameLen then
      -- end of frame, check crc16-ccit
      if getcrc16z s.jetiFrame s.jetiFrameLen = 0 then
        some { s with
          jetiBaudValid := true
          jetiRcFrameComplete := true
          jetiFrameBegun := false }
      else
        some { s with
          jetiJunkChars := (s.jetiJunkChars + s.jetiFrameLen) % 65536
          jetiFrameBegun := false }
    else
      some s
  else
    none

/-- The receive callback `jetiDataReceive(uint16_t c)` (lines 100-140). -/
def jetiDataReceive (s : State) (c : Nat) : Option State :=
  let c := c % 65536
  if !s.jetiFrameBegun then
    -- check for frame begin byte
    if c = JETI_RCFRAME_BEGIN then
      jetiStore { s with
        jetiFrameBegun := true
        jetiRcFrameComplete := false
        jetiFramePos := 0
        jetiFrameLen := JETI_FRAME_MINLEN } c
    else
      some { s with jetiJunkChars := (s.jetiJunkChars + 1) % 65536 }
  else if s.jetiFramePos = 2 then
    -- capture byte 3, aka the frame length
    let s := { s with jetiFrameLen := c % 256 }
    let s := if s.jetiFrameLen > JETI_FRAME_MAXLEN then
      { s with jetiFrameBegun := false } else s
    jetiStore s c
  else if s.jetiFramePos = 4 ∧ c % 256 ≠ JETI_PACKET_RC then
    -- ignore telemetry and jetibox packets
    jetiStore { s with jetiFrameBegun := false } c
  else
    jetiStore s c

/-- Feeding a byte stream to the receive callback, one call per byte. -/
def feed (s : State) : List Nat → Option State
  | [] => some s
  | c :: cs => (jetiDataReceive s c).bind fun s' => feed s' cs

/-! ## Poll operation and baud negotiator -/

/-- Modelled from the spec: `uartOpen` and `uartSetHalfDuplex` belong to the
serial driver, which is not part of `jetiex.c`.  Section 4.3 says the line is
reopened at the requested candidate rate; the only effect the driver can
observe afterwards is the configured rate `core.rcvrport->baudRate` (a
`uint32_t`).  None of the statics of `jetiex.c` is visible to the serial
driver, so they are left as they are. -/
def jetiUartOpen (s : State) (baud : Nat) : State :=
  { s with baudRate := baud % 4294967296 }

/-- The poll `jetiFrameComplete` (lines 82-97): the returned flag and the
state after the call. -/
def jetiFrameComplete (s : State) : Bool × State :=
  if s.jetiRcFrameComplete then
    (true, { s with failsafeCnt := 0, jetiRcFrameComplete := false })
  else if !s.jetiBaudValid ∧ s.jetiJunkChars > 1000 then
    -- If no valid channel data is received try switching baud
    let s := { s with jetiJunkChars := 0 }
    if s.baudRate = JETI_BAUD_SLOW then
      (false, jetiUartOpen s JETI_BAUD_FAST)
    else
      (false, jetiUartOpen s JETI_BAUD_SLOW)
  else
    (false, s)

/-! ## Channel extractor -/

/-- The channel read `jetiReadRawRC(uint8_t chan)` (lines 142-161).  The remap
table `mcfg.rcmap` (bytes) and the neutral value `mcfg.midrc` (`uint16_t`)
live in the configuration, outside `jetiex.c`, and are parameters here.
`data + 4` is computed in `int`, so it does not wrap at 16 bits. -/
def jetiReadRawRC (rcmap : Nat → Nat) (midrc : Nat) (s : State) (chan : Nat) : Nat :=
  let chan := chan % 256
  -- chan = mcfg.rcmap[chan];
  let chan := rcmap chan % 256
  if chan < JETI_NUM_CHANNELS then
    -- rc channel data starts at byte 7, each channel is 2 bytes in LSB, MSB order
    let b := (6 + chan * 2) % 256
    let data := (((s.jetiFrame (b + 1) % 65536) <<< 8) ||| (s.jetiFrame b % 65536)) % 65536
    -- 1 = 1/8 us
    ((data + 4) / 8) % 65536
  else
    midrc % 65536

/-! ## Reachable states and frames -/

/-- The states the driver can be in: the initial state, and whatever a receive
callback or a poll makes of a reachable state. -/
inductive Reachable : State → Prop
  | init : Reachable initState
  | recv {s s' : State} (c : Nat) : Reachable s → jetiDataReceive s c = some s' → Reachable s'
  | poll {s : State} : Reachable s → Reachable (jetiFrameComplete s).2

/-- The state right after the 7-byte RC frame `3E 00 07 00 31 66 19` has been
received from the initial state. -/
def acceptedState : State :=
  (feed initState [0x3E, 0x00, 0x07, 0x00, 0x31, 0x66, 0x19]).getD initState

/-- The assembler `k` bytes into an attempt on the frame `F` that began in
state `s0`: the attempt is open, the cursor is `k`, the completion flag is
false, the declared length is the minimum until the length byte has arrived
and `|F|` afterwards, the first `k` slots hold the first `k` bytes of `F`, and
the baud-valid flag, junk counter, failsafe counter and line rate are those of
`s0`. -/
def Assembling (F : List Nat) (s0 : State) (k : Nat) (s : State) : Prop :=
  s.jetiFrameBegun = true ∧ s.jetiFramePos = k ∧ s.jetiRcFrameComplete = false ∧
  s.jetiFrameLen = (if k ≤ 2 then 7 else F.length) ∧
  (∀ i, i < k → s.jetiFrame i = F.getD i 0) ∧
  s.jetiBaudValid = s0.jetiBaudValid ∧ s.jetiJunkChars = s0.jetiJunkChars ∧
  s.failsafeCnt = s0.failsafeCnt ∧ s.baudRate = s0.baudRate

/-- A valid RC frame as the wire layout of section 6 has it: between 7 and 70
bytes, start marker at offset 0, its own length at offset 2, the RC-data type
code at offset 4, and a whole-frame checksum of zero. -/
def ValidRcFrame (F : List Nat) : Prop :=
  JETI_FRAME_MINLEN ≤ F.length ∧ F.length ≤ JETI_FRAME_MAXLEN ∧
  (∀ x ∈ F, x < 256) ∧
  F.getD 0 0 = JETI_RCFRAME_BEGIN ∧ F.getD 2 0 = F.length ∧
  F.getD 4 0 = JETI_PACKET_RC ∧ getcrc16z (memOf F) F.length = 0

instance (F : List Nat) : Decidable (ValidRcFrame F) := by
  unfold ValidRcFrame; infer_instance

/-- The sequence `F` with bit `k` of byte `i` flipped. -/
def flipBit (F : List Nat) (i k : Nat) : List Nat :=
  F.set i (F.getD i 0 ^^^ 2 ^ k)

/-- Any number of receive callbacks and polls, in any order, lead from the
first state to the second. -/
inductive Steps : State → State → Prop
  | refl (s : State) : Steps s s
  | recv {s s1 s2 : State} (c : Nat) : Steps s s1 → jetiDataReceive s1 c = some s2 → Steps s s2
  | poll {s s1 : State} : Steps s s1 → Steps s (jetiFrameComplete s1).2

/-- The state after the first six bytes of the 7-byte RC frame `3E 00 07 00 31
66 19` have been received from the initial state: the last byte is awaited. -/
def lastByteState : State :=
  (feed initState [0x3E, 0x00, 0x07, 0x00, 0x31, 0x66]).getD initState

/-- One bit of the reflected CRC-16-CCITT, as the claim words it: if the lowest
bit is 1 then `(x >> 1) XOR 0x8408` else `x >> 1`. -/
def crcBitStep (x : Nat) : Nat :=
  if x % 2 = 1 then (x >>> 1) ^^^ 0x8408 else x >>> 1

/-- One byte of the reflected CRC-16-CCITT: XOR the byte into the low byte of
the running value, then eight bit steps. -/
def crcByteStep (crc data : Nat) : Nat :=
  crcBitStep^[8] (crc ^^^ data)

/-- The CRC-16 with reflected polynomial `0x8408`, initial value 0 and no final
XOR, of a byte sequence. -/
def crc16Reflected (l : List Nat) : Nat := l.foldl crcByteStep 0

/-- The state after 1001 junk bytes and one start marker, received from the
initial state: an attempt is open and the junk counter is above the threshold. -/
def junkThenMarker : State :=
  { initState with
    jetiJunkChars := 1001
    jetiFrameBegun := true
    jetiFramePos := 1
    jetiFrameLen := JETI_FRAME_MINLEN
    jetiFrame := fun i => if i = 0 then JETI_RCFRAME_BEGIN else 0 }

/-- The assembler `k` bytes into an attempt on the byte sequence `B` whose
length byte declares `D`, begun in state `s0`: like `Assembling`, with the
declared length `D` in place of the length of the sequence. -/
def AssemblingTo (D : Nat) (B : List Nat) (s0 : State) (k : Nat) (s : State) : Prop :=
  s.jetiFrameBegun = true ∧ s.jetiFramePos = k ∧ s.jetiRcFrameComplete = false ∧
  s.jetiFrameLen = (if k ≤ 2 then 7 else D) ∧
  (∀ i, i < k → s.jetiFrame i = B.getD i 0) ∧
  s.jetiBaudValid = s0.jetiBaudValid ∧ s.jetiJunkChars = s0.jetiJunkChars ∧
  s.failsafeCnt = s0.failsafeCnt ∧ s.baudRate = s0.baudRate

set_option maxRecDepth 8192

/-! ## Bitwise facts -/

theorem shiftLeft_xor (a b n : Nat) : (a ^^^ b) <<< n = (a <<< n) ^^^ (b <<< n) := by
  apply Nat.eq_of_testBit_eq; intro i
  simp only [Nat.testBit_shiftLeft, Nat.testBit_xor]
  cases decide (i ≥ n) <;> simp

theorem shiftRight_xor (a b n : Nat) : (a ^^^ b) >>> n = (a >>> n) ^^^ (b >>> n) := by
  apply Nat.eq_of_testBit_eq; intro i
  simp only [Nat.testBit_shiftRight, Nat.testBit_xor]

theorem xor_mod_two_pow (a b n : Nat) : (a ^^^ b) % 2 ^ n = (a % 2 ^ n) ^^^ (b % 2 ^ n) := by
  apply Nat.eq_of_testBit_eq; intro i
  simp only [Nat.testBit_mod_two_pow, Nat.testBit_xor]
  cases decide (i < n) <;> simp

theorem xor_mod_256 (a b : Nat) : (a ^^^ b) % 256 = (a % 256) ^^^ (b % 256) :=
  xor_mod_two_pow a b 8

theorem xor_div_256 (a b : Nat) : (a ^^^ b) / 256 = (a / 256) ^^^ (b / 256) := by
  have h := shiftRight_xor a b 8
  simpa [Nat.shiftRight_eq_div_pow] using h

theorem shiftLeft8_or_eq_xor (a h : Nat) (hh : h < 256) :
    (a <<< 8) ||| h = (a <<< 8) ^^^ h := by
  apply Nat.eq_of_testBit_eq; intro i
  simp only [Nat.testBit_shiftLeft, Nat.testBit_xor, Nat.testBit_or]
  by_cases hi : i ≥ 8
  · have : h.testBit i = false := by
      apply Nat.testBit_lt_two_pow
      calc h < 2 ^ 8 := hh
        _ ≤ 2 ^ i := Nat.pow_le_pow_right (by decide) hi
    simp [this]
  · simp [hi]

theorem and_ff00_shiftRight (crc : Nat) (h : crc < 65536) :
    (crc &&& 0xFF00) >>> 8 = crc / 256 := by
  apply Nat.eq_of_testBit_eq; intro i
  have e : (0xFF00 : Nat) = (2 ^ 8 - 1) <<< 8 := by decide
  rw [e]
  simp only [Nat.testBit_shiftRight, Nat.testBit_and, Nat.testBit_shiftLeft,
    Nat.testBit_two_pow_sub_one]
  have : crc / 256 = crc >>> 8 := by rw [Nat.shiftRight_eq_div_pow]
  rw [this, Nat.testBit_shiftRight]
  by_cases hi : i < 8
  · simp [hi]
  · have : crc.testBit (8 + i) = false := by
      apply Nat.testBit_lt_two_pow
      calc crc < 2 ^ 16 := h
        _ ≤ 2 ^ (8 + i) := Nat.pow_le_pow_right (by decide) (by omega)
    simp [this]

/-! ## The checksum update in normal form -/

theorem crcT_lt (x : Nat) : crcT x < 65536 := by
  unfold crcT
  have hd : (x ^^^ (x <<< 4)) % 256 < 256 := Nat.mod_lt _ (by decide)
  generalize (x ^^^ (x <<< 4)) % 256 = d at hd
  have h1 : d <<< 8 < 2 ^ 16 := by rw [Nat.shiftLeft_eq]; omega
  have h2 : d >>> 4 < 2 ^ 16 := by rw [Nat.shiftRight_eq_div_pow]; omega
  have h3 : d <<< 3 < 2 ^ 16 := by rw [Nat.shiftLeft_eq]; omega
  exact Nat.xor_lt_two_pow (Nat.xor_lt_two_pow h1 h2) h3

theorem crcT_xor (x y : Nat) : crcT (x ^^^ y) = crcT x ^^^ crcT y := by
  unfold crcT
  simp only [shiftLeft_xor, shiftRight_xor, xor_mod_256]
  ac_rfl

theorem crcT_zero_table : ∀ x < 256, crcT x < 256 → x = 0 := by
  decide!

/-- Two mixed bytes whose images under `crcT` differ only in the low byte are
equal. -/
theorem crcT_inj {x y : Nat} (hx : x < 256) (hy : y < 256)
    (h : crcT x ^^^ crcT y < 256) : x = y := by
  rw [← crcT_xor] at h
  have hxy : x ^^^ y < 256 := Nat.xor_lt_two_pow (n := 8) hx hy
  have := crcT_zero_table _ hxy h
  exact Nat.xor_eq_zero.mp this

/-- Normal form of the update: the image of the mixed byte, XOR the high byte
of the running checksum. -/
theorem crc_ccitt_update_eq (crc data : Nat) (hc : crc < 65536) (hd : data < 256) :
    crc_ccitt_update crc data = crcT (data ^^^ (crc % 256)) ^^^ (crc / 256) := by
  have hx : data ^^^ (crc % 256) < 256 :=
    Nat.xor_lt_two_pow (n := 8) hd (Nat.mod_lt _ (by decide))
  have hh : crc / 256 < 256 := by omega
  have hlt : crcT (data ^^^ (crc % 256)) ^^^ (crc / 256) < 65536 :=
    Nat.xor_lt_two_pow (n := 16) (crcT_lt _) (by omega)
  have hand : (crc % 256) &&& (0xFF % 256) = crc % 256 := by
    have := Nat.and_pow_two_sub_one_eq_mod (crc % 256) 8
    simpa using this
  unfold crc_ccitt_update
  simp only [Nat.mod_eq_of_lt hc, Nat.mod_eq_of_lt hd, hand, Nat.mod_eq_of_lt hx,
    and_ff00_shiftRight crc hc]
  generalize hX : data ^^^ crc % 256 = x at *
  have hd2 : (x ^^^ x <<< 4) % 256 < 256 := Nat.mod_lt _ (by decide)
  have e : crcT x = (((x ^^^ x <<< 4) % 256) <<< 8) ^^^ (((x ^^^ x <<< 4) % 256) >>> 4)
      ^^^ (((x ^^^ x <<< 4) % 256) <<< 3) := rfl
  rw [e] at hlt ⊢
  generalize (x ^^^ x <<< 4) % 256 = d at *
  have h4 : d >>> 4 < 256 := by rw [Nat.shiftRight_eq_div_pow]; omega
  rw [Nat.mod_eq_of_lt (show d < 65536 by omega), Nat.mod_eq_of_lt h4,
    shiftLeft8_or_eq_xor d _ hh]
  have : (d <<< 8 ^^^ crc / 256) ^^^ d >>> 4 ^^^ d <<< 3
      = (d <<< 8 ^^^ d >>> 4 ^^^ d <<< 3) ^^^ crc / 256 := by ac_rfl
  rw [this]
  exact Nat.mod_eq_of_lt hlt

theorem specUpdate_eq (crc data : Nat) (hc : crc < 65536) (hd : data < 256) :
    specUpdate crc data = crcT (data ^^^ (crc % 256)) ^^^ (crc / 256) := by
  have hx : data ^^^ (crc % 256) < 256 :=
    Nat.xor_lt_two_pow (n := 8) hd (Nat.mod_lt _ (by decide))
  have hh : crc / 256 < 256 := by omega
  have hlt : crcT (data ^^^ (crc % 256)) ^^^ (crc / 256) < 65536 :=
    Nat.xor_lt_two_pow (n := 16) (crcT_lt _) (by omega)
  unfold specUpdate
  simp only [Nat.mod_eq_of_lt hh]
  generalize hX : data ^^^ crc % 256 = x at *
  have e1 : x ^^^ (x <<< 4) % 256 = (x ^^^ x <<< 4) % 256 := by
    rw [xor_mod_256, Nat.mod_eq_of_lt hx]
  have e : crcT x = (((x ^^^ x <<< 4) % 256) <<< 8) ^^^ (((x ^^^ x <<< 4) % 256) >>> 4)
      ^^^ (((x ^^^ x <<< 4) % 256) <<< 3) := rfl
  rw [e] at hlt ⊢
  rw [e1]
  have hdlt : (x ^^^ x <<< 4) % 256 < 256 := Nat.mod_lt _ (by decide)
  generalize (x ^^^ x <<< 4) % 256 = d at *
  have h4 : d >>> 4 < 256 := by rw [Nat.shiftRight_eq_div_pow]; omega
  rw [Nat.mod_eq_of_lt h4, shiftLeft8_or_eq_xor d _ hh]
  have : (d <<< 8 ^^^ crc / 256) ^^^ d >>> 4 ^^^ d <<< 3
      = (d <<< 8 ^^^ d >>> 4 ^^^ d <<< 3) ^^^ crc / 256 := by ac_rfl
  rw [this]
  exact Nat.mod_eq_of_lt hlt

theorem crc_ccitt_update_lt (crc data : Nat) : crc_ccitt_update crc data < 65536 :=
  Nat.mod_lt _ (by decide)

theorem crc_ccitt_update_eq_spec (crc data : Nat) (hc : crc < 65536) (hd : data < 256) :
    crc_ccitt_update crc data = specUpdate crc data := by
  rw [crc_ccitt_update_eq crc data hc hd, specUpdate_eq crc data hc hd]

/-! ## The checksum loop as a fold -/

theorem memOf_cons_succ (a : Nat) (l : List Nat) :
    (fun i => memOf (a :: l) (i + 1)) = memOf l := by
  funext i; simp [memOf]

theorem getcrc16z_loop_memOf (l : List Nat) : ∀ (len c : Nat), len ≤ l.length →
    getcrc16z_loop (memOf l) len c = (l.take len).foldl crc_ccitt_update c := by
  induction l with
  | nil =>
    intro len c h
    have : len = 0 := by simpa using h
    subst this; rfl
  | cons a l ih =>
    intro len c h
    cases len with
    | zero => rfl
    | succ n =>
      have hn : n ≤ l.length := by simpa using h
      simp only [getcrc16z_loop, memOf_cons_succ, List.take_succ_cons, List.foldl_cons]
      rw [ih n _ hn]
      rfl

theorem getcrc16z_memOf (l : List Nat) (len : Nat) (h : len ≤ l.length) (h16 : len < 65536) :
    getcrc16z (memOf l) len = (l.take len).foldl crc_ccitt_update 0 := by
  unfold getcrc16z
  rw [Nat.mod_eq_of_lt h16, getcrc16z_loop_memOf l len 0 h]

theorem getcrc16z_loop_congr (len : Nat) : ∀ (p q : Nat → Nat) (c : Nat),
    (∀ i, i < len → p i = q i) → getcrc16z_loop p len c = getcrc16z_loop q len c := by
  induction len with
  | zero => intro p q c _; rfl
  | succ n ih =>
    intro p q c h
    simp only [getcrc16z_loop]
    rw [h 0 (Nat.succ_pos n)]
    exact ih _ _ _ (fun i hi => h (i + 1) (Nat.succ_lt_succ hi))

theorem getcrc16z_congr (p q : Nat → Nat) (len : Nat) (h16 : len < 65536)
    (h : ∀ i, i < len → p i = q i) : getcrc16z p len = getcrc16z q len := by
  unfold getcrc16z
  rw [Nat.mod_eq_of_lt h16]
  exact getcrc16z_loop_congr len p q 0 h

theorem foldl_update_lt (l : List Nat) : ∀ c, c < 65536 →
    l.foldl crc_ccitt_update c < 65536 := by
  induction l with
  | nil => intro c h; exact h
  | cons a l ih => intro c _; exact ih _ (crc_ccitt_update_lt c a)

theorem foldl_update_eq_spec (l : List Nat) (hb : ∀ x ∈ l, x < 256) : ∀ c, c < 65536 →
    l.foldl crc_ccitt_update c = l.foldl specUpdate c := by
  induction l with
  | nil => intro c _; rfl
  | cons a l ih =>
    intro c hc
    have ha : a < 256 := hb a (List.mem_cons_self a l)
    simp only [List.foldl_cons]
    rw [← crc_ccitt_update_eq_spec c a hc ha]
    exact ih (fun x hx => hb x (List.mem_cons_of_mem a hx)) _ (crc_ccitt_update_lt c a)

/-! ## Injectivity of the update -/

theorem xor_swap_of_eq {a b h1 h2 : Nat} (h : a ^^^ h1 = b ^^^ h2) : a ^^^ b = h1 ^^^ h2 := by
  have e : a ^^^ b = (a ^^^ h1) ^^^ (b ^^^ h1) := by
    have : (a ^^^ h1) ^^^ (b ^^^ h1) = (a ^^^ b) ^^^ (h1 ^^^ h1) := by ac_rfl
    rw [this, Nat.xor_self, Nat.xor_zero]
  rw [e, h]
  have : (b ^^^ h2) ^^^ (b ^^^ h1) = (b ^^^ b) ^^^ (h1 ^^^ h2) := by ac_rfl
  rw [this, Nat.xor_self, Nat.zero_xor]

/-- For a fixed running checksum the update is injective in the data byte. -/
theorem crc_ccitt_update_inj_data {c d1 d2 : Nat} (hc : c < 65536) (h1 : d1 < 256)
    (h2 : d2 < 256) (h : crc_ccitt_update c d1 = crc_ccitt_update c d2) : d1 = d2 := by
  rw [crc_ccitt_update_eq c d1 hc h1, crc_ccitt_update_eq c d2 hc h2] at h
  have hl : c % 256 < 256 := Nat.mod_lt _ (by decide)
  have hx := xor_swap_of_eq h
  rw [Nat.xor_self] at hx
  have := crcT_inj (Nat.xor_lt_two_pow (n := 8) h1 hl) (Nat.xor_lt_two_pow (n := 8) h2 hl)
    (by rw [hx]; decide)
  exact Nat.xor_left_injective this

/-- For a fixed data byte the update is injective in the running checksum. -/
theorem crc_ccitt_update_inj_crc {c1 c2 d : Nat} (h1 : c1 < 65536) (h2 : c2 < 65536)
    (hd : d < 256) (h : crc_ccitt_update c1 d = crc_ccitt_update c2 d) : c1 = c2 := by
  rw [crc_ccitt_update_eq c1 d h1 hd, crc_ccitt_update_eq c2 d h2 hd] at h
  have hl1 : c1 % 256 < 256 := Nat.mod_lt _ (by decide)
  have hl2 : c2 % 256 < 256 := Nat.mod_lt _ (by decide)
  have hh1 : c1 / 256 < 256 := by omega
  have hh2 : c2 / 256 < 256 := by omega
  have hx := xor_swap_of_eq h
  have hxe := crcT_inj (Nat.xor_lt_two_pow (n := 8) hd hl1)
    (Nat.xor_lt_two_pow (n := 8) hd hl2)
    (by rw [hx]; exact Nat.xor_lt_two_pow (n := 8) hh1 hh2)
  have hl : c1 % 256 = c2 % 256 := Nat.xor_right_injective hxe
  rw [hxe] at h
  have hh : c1 / 256 = c2 / 256 := Nat.xor_right_injective h
  omega

theorem foldl_update_inj (l : List Nat) (hb : ∀ x ∈ l, x < 256) : ∀ c1 c2, c1 < 65536 →
    c2 < 65536 → l.foldl crc_ccitt_update c1 = l.foldl crc_ccitt_update c2 → c1 = c2 := by
  induction l with
  | nil => intro c1 c2 _ _ h; exact h
  | cons a l ih =>
    intro c1 c2 h1 h2 h
    have ha : a < 256 := hb a (List.mem_cons_self a l)
    have := ih (fun x hx => hb x (List.mem_cons_of_mem a hx)) _ _
      (crc_ccitt_update_lt c1 a) (crc_ccitt_update_lt c2 a) h
    exact crc_ccitt_update_inj_crc h1 h2 ha this

/-! ## Checksum claims -/

/-- C3. Checksum correctness: on every 16-bit `crc` and every byte `data`,
`crc_ccitt_update` is the transform of section 4.2; `getcrc16z` over the first
`len` bytes of a byte sequence is the left-to-right fold of that transform
from 0; the checksum of the empty range is 0 and that of the single byte
`0x01` is `0x1189`. -/
theorem checksum_correct :
    (∀ crc data, crc < 65536 → data < 256 →
      crc_ccitt_update crc data = specUpdate crc data) ∧
    (∀ (p : List Nat) (len : Nat), (∀ x ∈ p, x < 256) → len ≤ p.length → len < 65536 →
      getcrc16z (memOf p) len = specChecksum (p.take len)) ∧
    getcrc16z (memOf []) 0 = 0 ∧ getcrc16z (memOf [0x01]) 1 = 0x1189 := by
  refine ⟨crc_ccitt_update_eq_spec, ?_, by decide, by decide⟩
  intro p len hb hlen h16
  rw [getcrc16z_memOf p len hlen h16]
  exact foldl_update_eq_spec _ (fun x hx => hb x (List.mem_of_mem_take hx)) 0 (by decide)

theorem checksum_correct_witness :
    crc_ccitt_update 0x1189 0x02 = specUpdate 0x1189 0x02 ∧
    getcrc16z (memOf [0x3E, 0x00, 0x07]) 2 = specChecksum ([0x3E, 0x00, 0x07].take 2) :=
  ⟨checksum_correct.1 0x1189 0x02 (by decide) (by decide),
   checksum_correct.2.1 [0x3E, 0x00, 0x07] 2 (by decide) (by decide) (by decide)⟩

theorem flipBit_eq (F : List Nat) (i k : Nat) (hi : i < F.length) :
    flipBit F i k = F.take i ++ (F[i] ^^^ 2 ^ k) :: F.drop (i + 1) := by
  unfold flipBit
  rw [List.getD_eq_getElem _ _ hi, List.set_eq_take_append_cons_drop]
  simp [hi]

theorem xor_two_pow_ne (b k : Nat) : b ^^^ 2 ^ k ≠ b := by
  intro h
  have h2 : b ^^^ 2 ^ k = b ^^^ 0 := by rw [h, Nat.xor_zero]
  have := Nat.xor_right_injective h2
  exact absurd this (Nat.pos_iff_ne_zero.mp (Nat.two_pow_pos k))

theorem two_pow_lt_256 {k : Nat} (hk : k < 8) : 2 ^ k < 256 := by
  calc 2 ^ k < 2 ^ 8 := Nat.pow_lt_pow_right (by decide) hk
    _ = 256 := by decide

/-- C4. Bit-flip sensitivity of checksum validation: if the checksum of a
non-empty byte sequence `F` (of a length `getcrc16z` can be asked for) is
zero, then flipping any one bit `k < 8` of any one byte `i < |F|` gives a
sequence whose checksum is not zero. -/
theorem bitflip_checksum_nonzero (F : List Nat) (hb : ∀ x ∈ F, x < 256)
    (hlen : F.length < 65536) (h0 : getcrc16z (memOf F) F.length = 0)
    (i k : Nat) (hi : i < F.length) (hk : k < 8) :
    getcrc16z (memOf (flipBit F i k)) F.length ≠ 0 := by
  have hlen' : (flipBit F i k).length = F.length := by simp [flipBit]
  have e1 := getcrc16z_memOf F F.length (Nat.le_refl _) hlen
  have e2 := getcrc16z_memOf (flipBit F i k) F.length (by rw [hlen']) hlen
  rw [List.take_length] at e1
  rw [← hlen', List.take_length, hlen'] at e2
  rw [e1] at h0
  rw [e2, flipBit_eq F i k hi]
  have hF : F = F.take i ++ F[i] :: F.drop (i + 1) := by
    rw [List.getElem_cons_drop, List.take_append_drop]
  have hbi : F[i] < 256 := hb _ (List.getElem_mem hi)
  have hbi' : F[i] ^^^ 2 ^ k < 256 := Nat.xor_lt_two_pow (n := 8) hbi (two_pow_lt_256 hk)
  have hcA : (F.take i).foldl crc_ccitt_update 0 < 65536 := foldl_update_lt _ 0 (by decide)
  intro h
  have h0' : (F.take i ++ F[i] :: F.drop (i + 1)).foldl crc_ccitt_update 0 = 0 := by
    rw [← hF]; exact h0
  rw [List.foldl_append, List.foldl_cons] at h0' h
  replace h := h.trans h0'.symm
  have h1 := foldl_update_inj (F.drop (i + 1)) (fun x hx => hb x (List.mem_of_mem_drop hx))
    _ _ (crc_ccitt_update_lt _ _) (crc_ccitt_update_lt _ _) h
  exact xor_two_pow_ne _ _ (crc_ccitt_update_inj_data hcA hbi' hbi h1)

theorem bitflip_checksum_nonzero_witness :
    getcrc16z (memOf (flipBit [0x3E, 0x00, 0x07, 0x00, 0x31, 0x66, 0x19] 2 3)) 7 ≠ 0 :=
  bitflip_checksum_nonzero [0x3E, 0x00, 0x07, 0x00, 0x31, 0x66, 0x19] (by decide) (by decide)
    (by decide) 2 3 (by decide) (by decide)

/-! ## The assembler on a valid frame -/

theorem feed_append (a b : List Nat) : ∀ s, feed s (a ++ b) = (feed s a).bind fun s' => feed s' b := by
  induction a with
  | nil => intro s; rfl
  | cons c a ih =>
    intro s
    simp only [List.cons_append, feed]
    cases jetiDataReceive s c with
    | none => rfl
    | some s1 => simpa using ih s1

theorem feed_singleton (s : State) (c : Nat) : feed s [c] = jetiDataReceive s c := by
  simp only [feed]
  cases jetiDataReceive s c <;> rfl

theorem take_succ_getD (F : List Nat) (k : Nat) (hk : k < F.length) :
    F.take (k + 1) = F.take k ++ [F.getD k 0] := by
  rw [List.getD_eq_getElem _ _ hk, List.take_succ, List.getElem?_eq_getElem hk]
  rfl

theorem getD_lt_256 {F : List Nat} (hb : ∀ x ∈ F, x < 256) (k : Nat) : F.getD k 0 < 256 := by
  by_cases hk : k < F.length
  · rw [List.getD_eq_getElem _ _ hk]; exact hb _ (List.getElem_mem hk)
  · rw [List.getD_eq_default _ _ (by omega)]; decide

/-- First byte of an attempt: from a Seeking state the start marker opens an
attempt, is stored in slot 0, and leaves everything but the assembler fields
and the completion flag alone. -/
theorem receive_start (s : State) (hs : s.jetiFrameBegun = false) :
    jetiDataReceive s JETI_RCFRAME_BEGIN = some { s with
      jetiFrameBegun := true
      jetiRcFrameComplete := false
      jetiFramePos := 1
      jetiFrameLen := JETI_FRAME_MINLEN
      jetiFrame := fun i => if i = 0 then JETI_RCFRAME_BEGIN else s.jetiFrame i } := by
  simp [jetiDataReceive, jetiStore, hs, JETI_RCFRAME_BEGIN, JETI_FRAME_MAXLEN,
    JETI_FRAME_MINLEN]

/-- The assembler in the middle of a frame of declared length `L`, `k` bytes
in, receiving a byte `c` that is the length at offset 2 and the RC type code
at offset 4: the byte is stored and the attempt goes on. -/
theorem receive_mid (L k c : Nat) (hmin : 7 ≤ L) (hmax : L ≤ 70) (h1 : 1 ≤ k)
    (hk : k + 1 < L) (hc : c < 256) (h2 : k = 2 → c = L) (h4 : k = 4 → c = JETI_PACKET_RC)
    (s : State) (hb : s.jetiFrameBegun = true)
    (hp : s.jetiFramePos = k) (hl : s.jetiFrameLen = if k ≤ 2 then 7 else L) :
    jetiDataReceive s c = some { s with
      jetiFramePos := k + 1
      jetiFrameLen := if k + 1 ≤ 2 then 7 else L
      jetiFrame := fun i => if i = k then c else s.jetiFrame i } := by
  have hc16 : c % 65536 = c := Nat.mod_eq_of_lt (by omega)
  have hc8 : c % 256 = c := Nat.mod_eq_of_lt hc
  have hk8 : (k + 1) % 256 = k + 1 := Nat.mod_eq_of_lt (by omega)
  have hk70 : k < 70 := by omega
  obtain ⟨begun, pos, frame, complete, valid, junk, len, fs, baud⟩ := s
  simp only at hb hp hl
  subst hb hp
  by_cases k2 : pos = 2
  · subst k2
    have := h2 rfl
    subst this
    have : ¬ (70 < c) := by omega
    have h37 : ¬ (3 = c) := by omega
    simp [jetiDataReceive, jetiStore, JETI_FRAME_MAXLEN, hc16, hc8, this, h37]
  · by_cases k4 : pos = 4
    · subst k4
      have := h4 rfl
      subst this
      have hl' : len = L := by simpa using hl
      subst hl'
      have h5 : ¬ (5 = len) := by omega
      simp [jetiDataReceive, jetiStore, JETI_FRAME_MAXLEN, JETI_PACKET_RC, h5]
    · have hne : ¬ (pos + 1 = len) := by
        rw [hl]; split <;> omega
      have hl' : len = if pos + 1 ≤ 2 then 7 else L := by
        rw [hl]
        by_cases hp1 : pos = 1
        · subst hp1; simp
        · have a : ¬ (pos ≤ 2) := by omega
          have b : ¬ (pos + 1 ≤ 2) := by omega
          simp [a, b]
      simp [jetiDataReceive, jetiStore, JETI_FRAME_MAXLEN, hc16, hc8, hk8, hk70, k2, k4, hne]
      simpa using hl'

/-- The last byte of a frame of declared length `L` whose checksum over the
completed buffer is zero: the frame is accepted. -/
theorem receive_last (L k c : Nat) (hmin : 7 ≤ L) (hmax : L ≤ 70) (hk : k + 1 = L)
    (hc : c < 256) (s : State) (hb : s.jetiFrameBegun = true)
    (hp : s.jetiFramePos = k) (hl : s.jetiFrameLen = L)
    (hcrc : getcrc16z (fun i => if i = k then c else s.jetiFrame i) L = 0) :
    jetiDataReceive s c = some { s with
      jetiFramePos := L
      jetiFrame := fun i => if i = k then c else s.jetiFrame i
      jetiBaudValid := true
      jetiRcFrameComplete := true
      jetiFrameBegun := false } := by
  have hc16 : c % 65536 = c := Nat.mod_eq_of_lt (by omega)
  have hc8 : c % 256 = c := Nat.mod_eq_of_lt hc
  have hk8 : (k + 1) % 256 = k + 1 := Nat.mod_eq_of_lt (by omega)
  have hk70 : k < 70 := by omega
  have k2 : ¬ (k = 2) := by omega
  have k4 : ¬ (k = 4) := by omega
  obtain ⟨begun, pos, frame, complete, valid, junk, len, fs, baud⟩ := s
  simp only at hb hp hl hcrc
  subst hb hp hl hk
  simp [jetiDataReceive, jetiStore, JETI_FRAME_MAXLEN, hc16, hc8, hk8, hk70, k2, k4, hcrc]

/-- After the first `k` bytes of the valid frame `F` (`1 ≤ k < |F|`), fed from
a Seeking state, the attempt is still going on, the completion flag is
false, and the first `k` slots hold the first `k` bytes of `F`. -/
theorem feed_valid_initial (F : List Nat) (hF : ValidRcFrame F) (s : State)
    (hs : s.jetiFrameBegun = false) : ∀ k, 1 ≤ k → k < F.length →
    ∃ s', feed s (F.take k) = some s' ∧ Assembling F s k s' := by
  obtain ⟨hmin, hmax, hbytes, h0, h2, h4, hcrc⟩ := hF
  simp only [JETI_FRAME_MINLEN, JETI_FRAME_MAXLEN] at hmin hmax
  intro k
  induction k with
  | zero => intro h; omega
  | succ k ih =>
    intro _ hk
    by_cases hk0 : k = 0
    · subst hk0
      have e : feed s (F.take (0 + 1)) = jetiDataReceive s JETI_RCFRAME_BEGIN := by
        rw [take_succ_getD F 0 (by omega), List.take_zero, List.nil_append, feed_singleton, h0]
      rw [receive_start s hs] at e
      refine ⟨_, e, rfl, rfl, rfl, rfl, ?_, rfl, rfl, rfl, rfl⟩
      intro i hi
      have : i = 0 := by omega
      subst this
      simp only [if_true]
      exact h0.symm
    · obtain ⟨s1, hfeed, hb, hp, hcomp, hl, hbuf, hv, hj, hfs, hbr⟩ := ih (by omega) (by omega)
      have e : feed s (F.take (k + 1)) = jetiDataReceive s1 (F.getD k 0) := by
        rw [take_succ_getD F k (by omega), feed_append, hfeed, Option.some_bind, feed_singleton]
      rw [receive_mid F.length k (F.getD k 0) hmin hmax (by omega) hk
        (getD_lt_256 hbytes k) (fun e => by rw [e]; exact h2) (fun e => by rw [e]; exact h4)
        s1 hb hp hl] at e
      refine ⟨_, e, hb, rfl, hcomp, rfl, ?_, hv, hj, hfs, hbr⟩
      intro i hi
      by_cases hik : i = k
      · simp [hik]
      · simp only [hik, if_false]
        exact hbuf i (by omega)

/-- Frame acceptance: a valid RC frame fed from a Seeking state is accepted on
its last byte; the buffer then holds the frame, and the junk counter, the
failsafe counter and the line rate are what they were. -/
theorem feed_valid_frame (F : List Nat) (hF : ValidRcFrame F) (s : State)
    (hs : s.jetiFrameBegun = false) :
    ∃ s', feed s F = some s' ∧ s'.jetiRcFrameComplete = true ∧ s'.jetiFrameBegun = false ∧
      s'.jetiBaudValid = true ∧ s'.jetiFramePos = F.length ∧
      (∀ i, i < F.length → s'.jetiFrame i = F.getD i 0) ∧
      s'.jetiJunkChars = s.jetiJunkChars ∧ s'.failsafeCnt = s.failsafeCnt ∧
      s'.baudRate = s.baudRate := by
  obtain ⟨s1, hfeed, hb, hp, hcomp, hl, hbuf, hv, hj, hfs, hbr⟩ :=
    feed_valid_initial F hF s hs (F.length - 1) (by have := hF.1; simp only [JETI_FRAME_MINLEN] at this; omega)
      (by have := hF.1; simp only [JETI_FRAME_MINLEN] at this; omega)
  obtain ⟨hmin, hmax, hbytes, h0, h2, h4, hcrc⟩ := hF
  simp only [JETI_FRAME_MINLEN, JETI_FRAME_MAXLEN] at hmin hmax
  have hk : F.length - 1 + 1 = F.length := by omega
  have hl' : s1.jetiFrameLen = F.length := by
    rw [hl]; simp; omega
  have hbuf' : ∀ i, i < F.length →
      (fun i => if i = F.length - 1 then F.getD (F.length - 1) 0 else s1.jetiFrame i) i
        = F.getD i 0 := by
    intro i hi
    by_cases hik : i = F.length - 1
    · simp [hik]
    · simp only [hik, if_false]
      exact hbuf i (by omega)
  have hcrc' : getcrc16z (fun i => if i = F.length - 1 then F.getD (F.length - 1) 0
      else s1.jetiFrame i) F.length = 0 := by
    have := getcrc16z_congr (fun i => if i = F.length - 1 then F.getD (F.length - 1) 0
      else s1.jetiFrame i) (memOf F) F.length (by omega) hbuf'
    rw [this]; exact hcrc
  have e : feed s F = jetiDataReceive s1 (F.getD (F.length - 1) 0) := by
    conv => lhs; rw [← List.take_length F, ← hk, take_succ_getD F (F.length - 1) (by omega)]
    rw [feed_append, hfeed, Option.some_bind, feed_singleton]
  rw [receive_last F.length (F.length - 1) (F.getD (F.length - 1) 0) hmin hmax hk
    (getD_lt_256 hbytes _) s1 hb hp hl' hcrc'] at e
  exact ⟨_, e, rfl, rfl, rfl, rfl, hbuf', hj, hfs, hbr⟩

/-! ## Assembler claims -/

/-- C1. Frame acceptance round-trip: a valid RC frame `F` fed byte by byte from
any Seeking state leaves the completion flag false after each of the first
`|F| - 1` bytes and true after the last one, and the buffer slots `[0, |F|)`
then hold `F`. -/
theorem frame_acceptance_roundtrip (F : List Nat) (hF : ValidRcFrame F) (s : State)
    (hs : s.jetiFrameBegun = false) :
    (∀ k, 1 ≤ k → k < F.length →
      ∃ s', feed s (F.take k) = some s' ∧ s'.jetiRcFrameComplete = false) ∧
    (∃ s', feed s F = some s' ∧ s'.jetiRcFrameComplete = true ∧
      ∀ i, i < F.length → s'.jetiFrame i = F.getD i 0) := by
  constructor
  · intro k h1 hk
    obtain ⟨s1, hfeed, hA⟩ := feed_valid_initial F hF s hs k h1 hk
    exact ⟨s1, hfeed, hA.2.2.1⟩
  · obtain ⟨s1, hfeed, hc, _, _, _, hbuf, _⟩ := feed_valid_frame F hF s hs
    exact ⟨s1, hfeed, hc, hbuf⟩

theorem frame_acceptance_roundtrip_witness :
    (∀ k, 1 ≤ k → k < [0x3E, 0x00, 0x07, 0x00, 0x31, 0x66, 0x19].length →
      ∃ s', feed staleSeeking
        ([0x3E, 0x00, 0x07, 0x00, 0x31, 0x66, 0x19].take k) = some s' ∧
        s'.jetiRcFrameComplete = false) ∧
    (∃ s', feed staleSeeking
        [0x3E, 0x00, 0x07, 0x00, 0x31, 0x66, 0x19] = some s' ∧
      s'.jetiRcFrameComplete = true ∧
      ∀ i, i < [0x3E, 0x00, 0x07, 0x00, 0x31, 0x66, 0x19].length →
        s'.jetiFrame i = [0x3E, 0x00, 0x07, 0x00, 0x31, 0x66, 0x19].getD i 0) :=
  frame_acceptance_roundtrip [0x3E, 0x00, 0x07, 0x00, 0x31, 0x66, 0x19] (by decide)
    staleSeeking rfl

/-- C2 (the code at the failing input). The stream `0x3E, 0x00, 0x00, 0x00,
0x31` followed by zero bytes declares the length 0, which the cursor never
meets: after 70 bytes the attempt is still open with the cursor at 70, and the
71st byte is stored at index 70, outside the buffer. -/
theorem cursor_overrun_at_declared_length_zero :
    (feed initState ([0x3E, 0x00, 0x00, 0x00, 0x31] ++ List.replicate 65 0x00)).map
        (fun s => (s.jetiFrameBegun, s.jetiFramePos, s.jetiFrameLen)) = some (true, 70, 0) ∧
    (feed initState ([0x3E, 0x00, 0x00, 0x00, 0x31] ++ List.replicate 66 0x00)).isNone
        = true := by
  constructor <;> decide

/-- C6 (the code at the failing input). The five bytes `0x3E, 0x00, 0x05,
0x18, 0xC1` declare the length 5 and have checksum zero; their type byte
`0xC1` is not the RC-data code, yet the call that receives it sets the
completion flag. -/
theorem non_rc_type_accepted_at_length_five :
    (feed initState [0x3E, 0x00, 0x05, 0x18]).map
        (fun s => (s.jetiRcFrameComplete, s.jetiFrameBegun, s.jetiFramePos))
      = some (false, true, 4) ∧
    (feed initState [0x3E, 0x00, 0x05, 0x18, 0xC1]).map
        (fun s => (s.jetiRcFrameComplete, s.jetiFrame 4, s.jetiFrameLen))
      = some (true, 0xC1, 5) := by
  constructor <;> decide

/-- The three bytes start marker, any byte, oversized length, from a Seeking
state: the attempt is aborted with the cursor at 3 and only slots 0, 1, 2
written. -/
theorem feed_oversized (s : State) (hs : s.jetiFrameBegun = false) (b1 n : Nat)
    (hb1 : b1 < 256) (hn : 71 ≤ n) (hn' : n ≤ 255) :
    feed s [JETI_RCFRAME_BEGIN, b1, n] = some { s with
      jetiFrameBegun := false
      jetiFramePos := 3
      jetiFrameLen := n
      jetiRcFrameComplete := false
      jetiFrame := fun i => if i = 2 then n else if i = 1 then b1
        else if i = 0 then JETI_RCFRAME_BEGIN else s.jetiFrame i } := by
  have hb16 : b1 % 65536 = b1 := Nat.mod_eq_of_lt (by omega)
  have hb8 : b1 % 256 = b1 := Nat.mod_eq_of_lt hb1
  have hn16 : n % 65536 = n := Nat.mod_eq_of_lt (by omega)
  have hn8 : n % 256 = n := Nat.mod_eq_of_lt (by omega)
  have h70 : 70 < n := by omega
  have h3 : ¬ (3 = n) := by omega
  obtain ⟨begun, pos, frame, complete, valid, junk, len, fs, baud⟩ := s
  simp only at hs
  subst hs
  simp [feed, jetiDataReceive, jetiStore, JETI_RCFRAME_BEGIN, JETI_FRAME_MAXLEN,
    JETI_FRAME_MINLEN, hb16, hb8, hn16, hn8, h70, h3]

/-- C7. Oversized rejection: from any Seeking state the bytes `0x3E`, `b1`, `n`
with `71 ≤ n ≤ 255` are all stored in range (slots 0, 1, 2, every other slot
keeps its content), leave the assembler Seeking with the cursor at 3, the
completion flag false, the baud-valid flag and the junk counter unchanged, and
a valid RC frame fed right afterwards is accepted on its last byte. -/
theorem oversized_rejection (s : State) (hs : s.jetiFrameBegun = false) (b1 n : Nat)
    (hb1 : b1 < 256) (hn : 71 ≤ n) (hn' : n ≤ 255) :
    ∃ s', feed s [JETI_RCFRAME_BEGIN, b1, n] = some s' ∧
      s'.jetiFrameBegun = false ∧ s'.jetiFramePos = 3 ∧
      s'.jetiFrame 0 = JETI_RCFRAME_BEGIN ∧ s'.jetiFrame 1 = b1 ∧ s'.jetiFrame 2 = n ∧
      (∀ i, 3 ≤ i → s'.jetiFrame i = s.jetiFrame i) ∧
      s'.jetiRcFrameComplete = false ∧ s'.jetiBaudValid = s.jetiBaudValid ∧
      s'.jetiJunkChars = s.jetiJunkChars ∧
      ∀ G, ValidRcFrame G → ∃ s2, feed s' G = some s2 ∧ s2.jetiRcFrameComplete = true ∧
        ∀ i, i < G.length → s2.jetiFrame i = G.getD i 0 := by
  refine ⟨_, feed_oversized s hs b1 n hb1 hn hn', rfl, rfl, rfl, rfl, rfl, ?_, rfl, rfl, rfl, ?_⟩
  · intro i hi
    have h2 : ¬ (i = 2) := by omega
    have h1 : ¬ (i = 1) := by omega
    have h0 : ¬ (i = 0) := by omega
    simp [h2, h1, h0]
  · intro G hG
    exact (feed_valid_frame G hG _ rfl).imp fun s2 h => ⟨h.1, h.2.1, h.2.2.2.2.2.1⟩

theorem oversized_rejection_witness :
    ∃ s', feed staleSeeking [JETI_RCFRAME_BEGIN, 0x3E, 71] = some s' ∧
      s'.jetiFrameBegun = false ∧ s'.jetiFramePos = 3 ∧
      s'.jetiFrame 0 = JETI_RCFRAME_BEGIN ∧ s'.jetiFrame 1 = 0x3E ∧ s'.jetiFrame 2 = 71 ∧
      (∀ i, 3 ≤ i → s'.jetiFrame i = staleSeeking.jetiFrame i) ∧
      s'.jetiRcFrameComplete = false ∧ s'.jetiBaudValid = staleSeeking.jetiBaudValid ∧
      s'.jetiJunkChars = staleSeeking.jetiJunkChars ∧
      ∀ G, ValidRcFrame G → ∃ s2, feed s' G = some s2 ∧ s2.jetiRcFrameComplete = true ∧
        ∀ i, i < G.length → s2.jetiFrame i = G.getD i 0 :=
  oversized_rejection staleSeeking rfl 0x3E 71 (by decide) (by decide) (by decide)

/-! ## Rejection of other packet types -/

/-- The type byte of a packet that is not RC data: the byte is stored at slot
4 and the attempt is aborted; the declared length is not 5, so there is no
checksum run. -/
theorem receive_bad_type (t : Nat) (ht : t < 256) (ht' : t ≠ JETI_PACKET_RC) (s : State)
    (hb : s.jetiFrameBegun = true) (hp : s.jetiFramePos = 4) (hl : s.jetiFrameLen ≠ 5) :
    jetiDataReceive s t = some { s with
      jetiFrameBegun := false
      jetiFramePos := 5
      jetiFrame := fun i => if i = 4 then t else s.jetiFrame i } := by
  have ht16 : t % 65536 = t := Nat.mod_eq_of_lt (by omega)
  have ht8 : t % 256 = t := Nat.mod_eq_of_lt ht
  obtain ⟨begun, pos, frame, complete, valid, junk, len, fs, baud⟩ := s
  simp only at hb hp hl
  subst hb hp
  have h5 : ¬ (5 = len) := fun h => hl h.symm
  simp only [JETI_PACKET_RC] at ht'
  simp [jetiDataReceive, jetiStore, JETI_FRAME_MAXLEN, JETI_PACKET_RC, ht16, ht8, ht', h5]

/-- Bytes other than the start marker, received while Seeking, are counted as
junk and change neither the Seeking state nor the completion flag. -/
theorem feed_junk (l : List Nat) : ∀ (s : State), s.jetiFrameBegun = false →
    (∀ c ∈ l, c < 65536 ∧ c ≠ JETI_RCFRAME_BEGIN) →
    ∃ s', feed s l = some s' ∧ s'.jetiFrameBegun = false ∧
      s'.jetiRcFrameComplete = s.jetiRcFrameComplete ∧ s'.jetiBaudValid = s.jetiBaudValid ∧
      s'.jetiJunkChars % 65536 = (s.jetiJunkChars + l.length) % 65536 ∧
      s'.jetiFrame = s.jetiFrame ∧ s'.jetiFramePos = s.jetiFramePos := by
  induction l with
  | nil =>
    intro s hs _
    exact ⟨s, rfl, hs, rfl, rfl, rfl, rfl, rfl⟩
  | cons c l ih =>
    intro s hs hl
    obtain ⟨hc16, hc⟩ := hl c (List.mem_cons_self c l)
    have hstep : jetiDataReceive s c
        = some { s with jetiJunkChars := (s.jetiJunkChars + 1) % 65536 } := by
      simp [jetiDataReceive, hs, Nat.mod_eq_of_lt hc16, hc]
    obtain ⟨s', hfeed, hb, hcomp, hv, hj, hfr, hpos⟩ :=
      ih { s with jetiJunkChars := (s.jetiJunkChars + 1) % 65536 } hs
        (fun x hx => hl x (List.mem_cons_of_mem c hx))
    refine ⟨s', ?_, hb, hcomp, hv, ?_, hfr, hpos⟩
    · simp only [feed, hstep, Option.some_bind]; exact hfeed
    · rw [hj]; simp only [List.length_cons]; omega

theorem set_take_split (F : List Nat) (t k : Nat) (h4 : 4 < F.length) (hk : 5 ≤ k) :
    (F.set 4 t).take k = F.take 4 ++ t :: (F.drop 5).take (k - 5) := by
  rw [List.set_eq_take_append_cons_drop, if_pos h4, List.take_append_eq_append_take]
  have e1 : (F.take 4).take k = F.take 4 := by
    rw [List.take_take]; congr 1; omega
  have e2 : (F.take 4).length = 4 := by
    rw [List.length_take]; omega
  have e3 : k - 4 = (k - 5) + 1 := by omega
  rw [e1, e2, e3, List.take_succ_cons]

theorem set_take_below (F : List Nat) (t k : Nat) (h4 : 4 < F.length) (hk : k ≤ 4) :
    (F.set 4 t).take k = F.take k := by
  rw [List.set_eq_take_append_cons_drop, if_pos h4, List.take_append_eq_append_take]
  have e1 : (F.take 4).take k = F.take k := by
    rw [List.take_take]; congr 1; omega
  have e2 : (F.take 4).length = 4 := by
    rw [List.length_take]; omega
  have e3 : k - 4 = 0 := by omega
  rw [e1, e2, e3, List.take_zero, List.append_nil]

/-- C5 (amended). A valid RC frame whose type byte is replaced by `t ≠ 0x31`,
fed from a Seeking state: the completion flag is false after each of the
first `k` bytes as long as none of the bytes that follow the type byte, up to
the `k`-th, is the start marker `0x3E`; in particular after each of the first
five bytes. -/
theorem non_rc_rejection (F : List Nat) (hF : ValidRcFrame F) (t : Nat) (ht : t < 256)
    (ht' : t ≠ JETI_PACKET_RC) (s : State) (hs : s.jetiFrameBegun = false)
    (k : Nat) (h1 : 1 ≤ k) (hk : k ≤ F.length)
    (hno : ∀ j, 5 ≤ j → j < k → F.getD j 0 ≠ JETI_RCFRAME_BEGIN) :
    ∃ s', feed s ((F.set 4 t).take k) = some s' ∧ s'.jetiRcFrameComplete = false := by
  have hmin : 7 ≤ F.length := hF.1
  have hbytes := hF.2.2.1
  by_cases hk4 : k ≤ 4
  · rw [set_take_below F t k (by omega) hk4]
    obtain ⟨s1, hfeed, hA⟩ := feed_valid_initial F hF s hs k h1 (by omega)
    exact ⟨s1, hfeed, hA.2.2.1⟩
  · rw [set_take_split F t k (by omega) (by omega)]
    obtain ⟨s1, hfeed, hb, hp, hcomp, hl, _⟩ := feed_valid_initial F hF s hs 4 (by omega) (by omega)
    have hl5 : s1.jetiFrameLen ≠ 5 := by
      rw [hl]; simp; omega
    have hstep := receive_bad_type t ht ht' s1 hb hp hl5
    have hjunk : ∀ c ∈ (F.drop 5).take (k - 5), c < 65536 ∧ c ≠ JETI_RCFRAME_BEGIN := by
      intro c hc
      obtain ⟨j, hj, rfl⟩ := List.getElem_of_mem hc
      have hj' : j < k - 5 := by
        have := hj; rw [List.length_take] at this; omega
      have hjF : 5 + j < F.length := by omega
      have e : ((F.drop 5).take (k - 5))[j] = F.getD (5 + j) 0 := by
        rw [List.getD_eq_getElem _ _ hjF]
        simp
      rw [e]
      exact ⟨by have := getD_lt_256 hbytes (5 + j); omega, hno (5 + j) (by omega) (by omega)⟩
    obtain ⟨s3, hfeed3, _, hcomp3, _⟩ := feed_junk _
      { s1 with
        jetiFrameBegun := false
        jetiFramePos := 5
        jetiFrame := fun i => if i = 4 then t else s1.jetiFrame i } rfl hjunk
    refine ⟨s3, ?_, ?_⟩
    · rw [feed_append, hfeed, Option.some_bind]
      simp only [feed, hstep, Option.some_bind]
      exact hfeed3
    · rw [hcomp3]; exact hcomp

theorem non_rc_rejection_witness :
    ∃ s', feed staleSeeking (([0x3E, 0x00, 0x07, 0x00, 0x31, 0x66, 0x19].set 4 0x3A).take 7)
      = some s' ∧ s'.jetiRcFrameComplete = false :=
  non_rc_rejection [0x3E, 0x00, 0x07, 0x00, 0x31, 0x66, 0x19] (by decide) 0x3A (by decide)
    (by decide) staleSeeking rfl 7 (by decide) (by decide) (by decide)

/-- C5 (counterexample). The 14-byte valid RC frame below carries a complete
valid 7-byte RC frame at offsets 5..11.  With its type byte replaced by `0x00`
the attempt is aborted at the type byte, the start marker at offset 5 opens a
fresh attempt, and the completion flag is true after the 12th byte. -/
theorem non_rc_rejection_counterexample :
    ValidRcFrame [0x3E, 0x00, 0x0E, 0x00, 0x31, 0x3E, 0x00, 0x07, 0x00, 0x31, 0x66, 0x19,
      0x85, 0xDE] ∧
    initState.jetiFrameBegun = false ∧ initState.jetiRcFrameComplete = false ∧
    (feed initState (([0x3E, 0x00, 0x0E, 0x00, 0x31, 0x3E, 0x00, 0x07, 0x00, 0x31, 0x66, 0x19,
      0x85, 0xDE].set 4 0x00).take 12)).map (fun s => s.jetiRcFrameComplete) = some true := by
  refine ⟨by decide, rfl, rfl, by decide⟩

/-! ## Channel extractor -/

/-- The value `jetiReadRawRC` computes for a remapped index below 16, in
arithmetic form. -/
theorem jetiReadRawRC_decode (rcmap : Nat → Nat) (midrc : Nat) (s : State) (chan : Nat)
    (hchan : chan < 256) (hr : rcmap chan < 16)
    (hlo : s.jetiFrame (6 + 2 * rcmap chan) < 256)
    (hhi : s.jetiFrame (7 + 2 * rcmap chan) < 256) :
    jetiReadRawRC rcmap midrc s chan
      = (s.jetiFrame (6 + 2 * rcmap chan) + 256 * s.jetiFrame (7 + 2 * rcmap chan) + 4) / 8 := by
  unfold jetiReadRawRC
  simp only [Nat.mod_eq_of_lt hchan, Nat.mod_eq_of_lt (show rcmap chan < 256 by omega),
    JETI_NUM_CHANNELS, if_pos hr]
  have hb : (6 + rcmap chan * 2) % 256 = 6 + 2 * rcmap chan := by omega
  have hb1 : 6 + 2 * rcmap chan + 1 = 7 + 2 * rcmap chan := by omega
  rw [hb, hb1]
  generalize s.jetiFrame (6 + 2 * rcmap chan) = lo at hlo
  generalize s.jetiFrame (7 + 2 * rcmap chan) = hi at hhi
  rw [Nat.mod_eq_of_lt (show hi < 65536 by omega), Nat.mod_eq_of_lt (show lo < 65536 by omega)]
  have hor : hi <<< 8 ||| lo = 2 ^ 8 * hi + lo := by
    rw [Nat.shiftLeft_eq, Nat.mul_comm]
    exact (Nat.mul_add_lt_is_or (show lo < 2 ^ 8 from hlo) hi).symm
  rw [hor]
  have h1 : (2 ^ 8 * hi + lo) % 65536 = lo + 256 * hi := by omega
  rw [h1]
  omega

theorem jetiReadRawRC_fallback (rcmap : Nat → Nat) (midrc : Nat) (s : State) (chan : Nat)
    (hchan : chan < 256) (hr : 16 ≤ rcmap chan) (hr8 : rcmap chan < 256)
    (hmid : midrc < 65536) : jetiReadRawRC rcmap midrc s chan = midrc := by
  unfold jetiReadRawRC
  simp only [Nat.mod_eq_of_lt hchan, Nat.mod_eq_of_lt hr8, JETI_NUM_CHANNELS,
    if_neg (show ¬ rcmap chan < 16 by omega), Nat.mod_eq_of_lt hmid]

/-- C8. Channel decode arithmetic: with `r = rcmap[chan]`, if `r < 16` the read
returns `floor((t + 4) / 8)` for the little-endian `t = jetiFrame[6 + 2r] +
256 * jetiFrame[7 + 2r]`, without wraparound, which is within 4 of `t / 8`
(in eighths) and at most 8192; the slots read lie at indices at most 37 (the
result does not depend on any other slot); the payload bytes `0x00, 0x08`
give 256.  If `r ≥ 16` the read returns `midrc` whatever the buffer holds. -/
theorem channel_decode (rcmap : Nat → Nat) (midrc : Nat) (s : State) (chan : Nat)
    (hchan : chan < 256) (hr8 : rcmap chan < 256) (hmid : midrc < 65536)
    (hbytes : ∀ i, s.jetiFrame i < 256) :
    (rcmap chan < 16 →
      jetiReadRawRC rcmap midrc s chan
        = (s.jetiFrame (6 + 2 * rcmap chan) + 256 * s.jetiFrame (7 + 2 * rcmap chan) + 4) / 8 ∧
      8 * jetiReadRawRC rcmap midrc s chan
        ≤ s.jetiFrame (6 + 2 * rcmap chan) + 256 * s.jetiFrame (7 + 2 * rcmap chan) + 4 ∧
      s.jetiFrame (6 + 2 * rcmap chan) + 256 * s.jetiFrame (7 + 2 * rcmap chan)
        < 8 * jetiReadRawRC rcmap midrc s chan + 4 ∧
      jetiReadRawRC rcmap midrc s chan ≤ 8192 ∧
      7 + 2 * rcmap chan ≤ 37 ∧
      (∀ s' : State, (∀ i, i ≤ 37 → s'.jetiFrame i = s.jetiFrame i) →
        jetiReadRawRC rcmap midrc s' chan = jetiReadRawRC rcmap midrc s chan) ∧
      (s.jetiFrame (6 + 2 * rcmap chan) = 0x00 → s.jetiFrame (7 + 2 * rcmap chan) = 0x08 →
        jetiReadRawRC rcmap midrc s chan = 256)) ∧
    (16 ≤ rcmap chan → ∀ s' : State, jetiReadRawRC rcmap midrc s' chan = midrc) := by
  constructor
  · intro hr
    have hlo := hbytes (6 + 2 * rcmap chan)
    have hhi := hbytes (7 + 2 * rcmap chan)
    have e := jetiReadRawRC_decode rcmap midrc s chan hchan hr hlo hhi
    refine ⟨e, ?_, ?_, ?_, by omega, ?_, ?_⟩
    · rw [e]; omega
    · rw [e]; omega
    · rw [e]; omega
    · intro s' hs'
      have h6 := hs' (6 + 2 * rcmap chan) (by omega)
      have h7 := hs' (7 + 2 * rcmap chan) (by omega)
      rw [e, jetiReadRawRC_decode rcmap midrc s' chan hchan hr (by rw [h6]; exact hlo)
        (by rw [h7]; exact hhi), h6, h7]
    · intro h0 h8
      rw [e, h0, h8]
  · intro hr s'
    exact jetiReadRawRC_fallback rcmap midrc s' chan hchan hr hr8 hmid

theorem channel_decode_witness :
    jetiReadRawRC (fun i => i) 1500 tickState 0 = 256 ∧
    jetiReadRawRC (fun i => i) 1500 tickState 16 = 1500 :=
  ⟨((channel_decode (fun i => i) 1500 tickState 0 (by decide) (by decide) (by decide)
      (fun i => by unfold tickState; dsimp only; split <;> decide)).1
      (by decide)).2.2.2.2.2.2 rfl rfl,
   (channel_decode (fun i => i) 1500 tickState 16 (by decide) (by decide) (by decide)
      (fun i => by unfold tickState; dsimp only; split <;> decide)).2 (by decide) tickState⟩

/-- C9 (counterexample). In the zeroed initial state, where no frame has passed
validation, the read of channel 0 (identity remap, neutral value 1500) returns
0, not the neutral value. -/
theorem stale_read_counterexample :
    Reachable initState ∧ initState.jetiBaudValid = false ∧
    jetiReadRawRC (fun i => i) 1500 initState 0 = 0 ∧
    jetiReadRawRC (fun i => i) 1500 initState 0 ≠ 1500 :=
  ⟨Reachable.init, rfl, by decide, by decide⟩

/-- C9 (amended). The read does not look at the baud-valid flag: in every
state it returns `midrc` for a channel whose remapped index is 16 or more,
and for a remapped index below 16 it returns the value decoded from the
buffer, which depends on the buffer alone and is 0 in the zeroed initial
state. -/
theorem stale_read (rcmap : Nat → Nat) (midrc : Nat) (chan : Nat)
    (hchan : chan < 256) (hr8 : rcmap chan < 256) (hmid : midrc < 65536) :
    (16 ≤ rcmap chan → ∀ s : State, jetiReadRawRC rcmap midrc s chan = midrc) ∧
    (rcmap chan < 16 → jetiReadRawRC rcmap midrc initState chan = 0) ∧
    (∀ s s' : State, s'.jetiFrame = s.jetiFrame →
      jetiReadRawRC rcmap midrc s' chan = jetiReadRawRC rcmap midrc s chan) := by
  refine ⟨fun hr s => jetiReadRawRC_fallback rcmap midrc s chan hchan hr hr8 hmid, ?_, ?_⟩
  · intro hr
    rw [jetiReadRawRC_decode rcmap midrc initState chan hchan hr
      (show (0 : Nat) < 256 by decide) (show (0 : Nat) < 256 by decide)]
    show (0 + 256 * 0 + 4) / 8 = 0
    decide
  · intro s s' h
    unfold jetiReadRawRC
    rw [h]

theorem stale_read_witness :
    (16 ≤ (fun i => i) 20 → ∀ s : State, jetiReadRawRC (fun i => i) 1500 s 20 = 1500) ∧
    ((fun i => i) 20 < 16 → jetiReadRawRC (fun i => i) 1500 initState 20 = 0) ∧
    (∀ s s' : State, s'.jetiFrame = s.jetiFrame →
      jetiReadRawRC (fun i => i) 1500 s' 20 = jetiReadRawRC (fun i => i) 1500 s 20) :=
  stale_read (fun i => i) 1500 20 (by decide) (by decide) (by decide)

/-! ## Poll operation -/

theorem jetiStore_complete_valid (s s' : State) (c : Nat) (h : jetiStore s c = some s')
    (hinv : s.jetiRcFrameComplete = true → s.jetiBaudValid = true) :
    s'.jetiRcFrameComplete = true → s'.jetiBaudValid = true := by
  unfold jetiStore at h
  split at h
  · dsimp only at h
    split at h
    · split at h
      · cases h; intro _; rfl
      · cases h; exact hinv
    · cases h; exact hinv
  · cases h

theorem jetiDataReceive_complete_valid (s s' : State) (c : Nat)
    (h : jetiDataReceive s c = some s')
    (hinv : s.jetiRcFrameComplete = true → s.jetiBaudValid = true) :
    s'.jetiRcFrameComplete = true → s'.jetiBaudValid = true := by
  unfold jetiDataReceive at h
  dsimp only at h
  split at h
  · split at h
    · exact jetiStore_complete_valid _ _ _ h (by intro hc; cases hc)
    · cases h; exact hinv
  · split at h
    · split at h
      · exact jetiStore_complete_valid _ _ _ h hinv
      · exact jetiStore_complete_valid _ _ _ h hinv
    · split at h
      · exact jetiStore_complete_valid _ _ _ h hinv
      · exact jetiStore_complete_valid _ _ _ h hinv

theorem jetiFrameComplete_complete_valid (s : State)
    (hinv : s.jetiRcFrameComplete = true → s.jetiBaudValid = true) :
    (jetiFrameComplete s).2.jetiRcFrameComplete = true →
      (jetiFrameComplete s).2.jetiBaudValid = true := by
  unfold jetiFrameComplete
  split
  · intro h; cases h
  · split
    · dsimp only
      split <;> exact hinv
    · exact hinv

/-- In every reachable state an unconsumed completion flag comes with the
baud-valid flag. -/
theorem reachable_complete_valid (s : State) (h : Reachable s) :
    s.jetiRcFrameComplete = true → s.jetiBaudValid = true := by
  induction h with
  | init => intro h; cases h
  | recv c _ hstep ih => exact jetiDataReceive_complete_valid _ _ c hstep ih
  | poll _ ih => exact jetiFrameComplete_complete_valid _ ih

/-- A poll in a state with the completion flag clear returns false and touches
nothing but, possibly, the junk counter and the line rate; with the
baud-valid flag set it touches nothing at all. -/
theorem poll_not_complete (s : State) (h : s.jetiRcFrameComplete = false) :
    (jetiFrameComplete s).1 = false ∧
    (jetiFrameComplete s).2.failsafeCnt = s.failsafeCnt ∧
    (jetiFrameComplete s).2.jetiRcFrameComplete = s.jetiRcFrameComplete ∧
    (jetiFrameComplete s).2.jetiFrame = s.jetiFrame ∧
    (jetiFrameComplete s).2.jetiFramePos = s.jetiFramePos ∧
    (jetiFrameComplete s).2.jetiFrameBegun = s.jetiFrameBegun ∧
    (jetiFrameComplete s).2.jetiBaudValid = s.jetiBaudValid ∧
    (s.jetiBaudValid = true → (jetiFrameComplete s).2 = s) := by
  unfold jetiFrameComplete
  rw [if_neg (by rw [h]; decide)]
  split
  · next hc =>
    have hv : s.jetiBaudValid = false := by
      have := hc.1; simpa using this
    dsimp only
    split <;> exact ⟨rfl, rfl, rfl, rfl, rfl, rfl, rfl, fun h' => by rw [hv] at h'; cases h'⟩
  · exact ⟨rfl, rfl, rfl, rfl, rfl, rfl, rfl, fun _ => rfl⟩

/-- C10. Idempotent poll: in a state with the completion flag set, the first
poll returns true, sets `failsafeCnt` to 0 and clears the flag; a second poll
right after it returns false and leaves `failsafeCnt`, the flag, the buffer
and the cursor unchanged, and in a reachable state also the line rate and the
junk counter. -/
theorem poll_idempotent (s : State) (h : s.jetiRcFrameComplete = true) :
    (jetiFrameComplete s).1 = true ∧
    (jetiFrameComplete s).2.failsafeCnt = 0 ∧
    (jetiFrameComplete s).2.jetiRcFrameComplete = false ∧
    (jetiFrameComplete (jetiFrameComplete s).2).1 = false ∧
    (jetiFrameComplete (jetiFrameComplete s).2).2.failsafeCnt
      = (jetiFrameComplete s).2.failsafeCnt ∧
    (jetiFrameComplete (jetiFrameComplete s).2).2.jetiRcFrameComplete
      = (jetiFrameComplete s).2.jetiRcFrameComplete ∧
    (jetiFrameComplete (jetiFrameComplete s).2).2.jetiFrame
      = (jetiFrameComplete s).2.jetiFrame ∧
    (jetiFrameComplete (jetiFrameComplete s).2).2.jetiFramePos
      = (jetiFrameComplete s).2.jetiFramePos ∧
    (Reachable s →
      (jetiFrameComplete (jetiFrameComplete s).2).2.baudRate
        = (jetiFrameComplete s).2.baudRate ∧
      (jetiFrameComplete (jetiFrameComplete s).2).2.jetiJunkChars
        = (jetiFrameComplete s).2.jetiJunkChars) := by
  have e1 : jetiFrameComplete s
      = (true, { s with failsafeCnt := 0, jetiRcFrameComplete := false }) := by
    unfold jetiFrameComplete; rw [if_pos h]
  rw [e1]
  dsimp only
  obtain ⟨p1, p2, p3, p4, p5, _, _, p8⟩ :=
    poll_not_complete { s with failsafeCnt := 0, jetiRcFrameComplete := false } rfl
  refine ⟨rfl, rfl, rfl, p1, p2, p3, p4, p5, ?_⟩
  intro hr
  have hv := reachable_complete_valid s hr h
  rw [p8 hv]
  exact ⟨rfl, rfl⟩

theorem reachable_feed (l : List Nat) : ∀ (s s' : State), Reachable s →
    feed s l = some s' → Reachable s' := by
  induction l with
  | nil => intro s s' hr h; cases h; exact hr
  | cons c l ih =>
    intro s s' hr h
    simp only [feed] at h
    cases hstep : jetiDataReceive s c with
    | none => rw [hstep] at h; cases h
    | some s1 =>
      rw [hstep, Option.some_bind] at h
      exact ih s1 s' (Reachable.recv c hr hstep) h

theorem acceptedState_spec :
    feed initState [0x3E, 0x00, 0x07, 0x00, 0x31, 0x66, 0x19] = some acceptedState ∧
    acceptedState.jetiRcFrameComplete = true := by
  obtain ⟨s1, hfeed, hc, _⟩ :=
    feed_valid_frame [0x3E, 0x00, 0x07, 0x00, 0x31, 0x66, 0x19] (by decide) initState rfl
  have e : acceptedState = s1 := by
    unfold acceptedState; rw [hfeed]; rfl
  rw [e]
  exact ⟨hfeed, hc⟩

theorem poll_idempotent_witness :
    (jetiFrameComplete acceptedState).1 = true ∧
    (jetiFrameComplete (jetiFrameComplete acceptedState).2).1 = false ∧
    (jetiFrameComplete acceptedState).2.failsafeCnt = 0 ∧
    (jetiFrameComplete (jetiFrameComplete acceptedState).2).2.baudRate
      = (jetiFrameComplete acceptedState).2.baudRate ∧
    (jetiFrameComplete (jetiFrameComplete acceptedState).2).2.jetiJunkChars
      = (jetiFrameComplete acceptedState).2.jetiJunkChars :=
  have h := poll_idempotent acceptedState acceptedState_spec.2
  have hr := h.2.2.2.2.2.2.2.2
    (reachable_feed _ _ _ Reachable.init acceptedState_spec.1)
  ⟨h.1, h.2.2.2.1, h.2.1, hr.1, hr.2⟩

/-! ## Baud negotiator -/

/-- Junk bytes received while Seeking, counted without wraparound: only the
junk counter changes. -/
theorem feed_junk_count (l : List Nat) : ∀ (s : State), s.jetiFrameBegun = false →
    (∀ c ∈ l, c < 65536 ∧ c ≠ JETI_RCFRAME_BEGIN) → s.jetiJunkChars + l.length < 65536 →
    feed s l = some { s with jetiJunkChars := s.jetiJunkChars + l.length } := by
  induction l with
  | nil => intro s _ _ _; rfl
  | cons c l ih =>
    intro s hs hl hlt
    obtain ⟨hc16, hc⟩ := hl c (List.mem_cons_self c l)
    simp only [List.length_cons] at hlt
    have hstep : jetiDataReceive s c
        = some { s with jetiJunkChars := s.jetiJunkChars + 1 } := by
      simp [jetiDataReceive, hs, Nat.mod_eq_of_lt hc16, hc,
        Nat.mod_eq_of_lt (show s.jetiJunkChars + 1 < 65536 by omega)]
    have := ih { s with jetiJunkChars := s.jetiJunkChars + 1 } hs
      (fun x hx => hl x (List.mem_cons_of_mem c hx)) (by simp only; omega)
    simp only [feed, hstep, Option.some_bind, this, List.length_cons]
    congr 2
    omega

/-- The poll when the baud negotiator fires. -/
theorem poll_switch (s : State) (hc : s.jetiRcFrameComplete = false)
    (hv : s.jetiBaudValid = false) (hj : s.jetiJunkChars > 1000) :
    jetiFrameComplete s = (false, { s with
      jetiJunkChars := 0
      baudRate := if s.baudRate = JETI_BAUD_SLOW then JETI_BAUD_FAST else JETI_BAUD_SLOW }) := by
  unfold jetiFrameComplete jetiUartOpen
  simp only [hc, hv]
  simp only [Bool.false_eq_true, if_false, Bool.not_false, true_and, if_pos hj]
  split <;> rfl

/-- The poll when the baud negotiator does not fire and no frame is pending. -/
theorem poll_idle (s : State) (hc : s.jetiRcFrameComplete = false)
    (h : ¬ (s.jetiBaudValid = false ∧ s.jetiJunkChars > 1000)) :
    jetiFrameComplete s = (false, s) := by
  unfold jetiFrameComplete
  rw [if_neg (by rw [hc]; decide)]
  have : ¬ ((!s.jetiBaudValid) = true ∧ s.jetiJunkChars > 1000) := by
    intro h'
    exact h ⟨by simpa using h'.1, h'.2⟩
  rw [if_neg this]

/-- The poll when a frame is pending. -/
theorem poll_pending (s : State) (hc : s.jetiRcFrameComplete = true) :
    jetiFrameComplete s = (true, { s with failsafeCnt := 0, jetiRcFrameComplete := false }) := by
  unfold jetiFrameComplete; rw [if_pos hc]

/-- C11. Baud escalation threshold: a poll changes the line rate if and only if
the completion flag is false, `jetiBaudValid` is false and the junk counter is
above 1000; when it does, it returns false, zeroes the junk counter and
selects the other candidate rate (125000 becomes 250000, anything else
125000); when it does not, rate and junk counter stay.  From the initial
state, 1001 bytes other than `0x3E` make the next poll switch from 125000 to
250000 and zero the counter; 1000 such bytes do not. -/
theorem baud_escalation :
    (∀ s : State, (jetiFrameComplete s).2.baudRate ≠ s.baudRate ↔
      (s.jetiRcFrameComplete = false ∧ s.jetiBaudValid = false ∧ s.jetiJunkChars > 1000)) ∧
    (∀ s : State, s.jetiRcFrameComplete = false → s.jetiBaudValid = false →
      s.jetiJunkChars > 1000 →
      (jetiFrameComplete s).1 = false ∧ (jetiFrameComplete s).2.jetiJunkChars = 0 ∧
      (jetiFrameComplete s).2.baudRate = if s.baudRate = 125000 then 250000 else 125000) ∧
    (∀ s : State,
      ¬ (s.jetiRcFrameComplete = false ∧ s.jetiBaudValid = false ∧ s.jetiJunkChars > 1000) →
      (jetiFrameComplete s).2.baudRate = s.baudRate ∧
      (jetiFrameComplete s).2.jetiJunkChars = s.jetiJunkChars) ∧
    (∀ l : List Nat, l.length = 1001 → (∀ c ∈ l, c < 256 ∧ c ≠ 0x3E) →
      ∃ s, feed initState l = some s ∧ s.baudRate = 125000 ∧
        (jetiFrameComplete s).2.baudRate = 250000 ∧
        (jetiFrameComplete s).2.jetiJunkChars = 0) ∧
    (∀ l : List Nat, l.length = 1000 → (∀ c ∈ l, c < 256 ∧ c ≠ 0x3E) →
      ∃ s, feed initState l = some s ∧ s.baudRate = 125000 ∧
        (jetiFrameComplete s).2.baudRate = 125000 ∧
        (jetiFrameComplete s).2.jetiJunkChars = 1000) := by
  have hstay : ∀ s : State,
      ¬ (s.jetiRcFrameComplete = false ∧ s.jetiBaudValid = false ∧ s.jetiJunkChars > 1000) →
      (jetiFrameComplete s).2.baudRate = s.baudRate ∧
      (jetiFrameComplete s).2.jetiJunkChars = s.jetiJunkChars := by
    intro s h
    cases hc : s.jetiRcFrameComplete with
    | true => rw [poll_pending s hc]; exact ⟨rfl, rfl⟩
    | false =>
      rw [poll_idle s hc (fun h' => h ⟨hc, h'.1, h'.2⟩)]
      exact ⟨rfl, rfl⟩
  have hjunk : ∀ l : List Nat, (∀ c ∈ l, c < 256 ∧ c ≠ 0x3E) →
      ∀ c ∈ l, c < 65536 ∧ c ≠ JETI_RCFRAME_BEGIN := by
    intro l h c hc
    exact ⟨by have := (h c hc).1; omega, (h c hc).2⟩
  refine ⟨?_, ?_, hstay, ?_, ?_⟩
  · intro s
    constructor
    · intro h
      by_contra hn
      exact h (hstay s hn).1
    · rintro ⟨hc, hv, hj⟩
      rw [poll_switch s hc hv hj]
      dsimp only
      simp only [JETI_BAUD_SLOW, JETI_BAUD_FAST]
      split <;> omega
  · intro s hc hv hj
    rw [poll_switch s hc hv hj]
    exact ⟨rfl, rfl, rfl⟩
  · intro l hlen hl
    have hfeed := feed_junk_count l initState rfl (hjunk l hl)
      (by rw [hlen]; decide)
    refine ⟨_, hfeed, rfl, ?_⟩
    rw [poll_switch _ rfl rfl (by rw [hlen]; decide)]
    exact ⟨rfl, rfl⟩
  · intro l hlen hl
    have hfeed := feed_junk_count l initState rfl (hjunk l hl)
      (by rw [hlen]; decide)
    refine ⟨_, hfeed, rfl, ?_⟩
    rw [poll_idle _ rfl (by rw [hlen]; decide)]
    rw [hlen]
    exact ⟨rfl, rfl⟩

theorem baud_escalation_witness :
    (∃ s, feed initState (List.replicate 1001 0x00) = some s ∧ s.baudRate = 125000 ∧
      (jetiFrameComplete s).2.baudRate = 250000 ∧
      (jetiFrameComplete s).2.jetiJunkChars = 0) ∧
    (∃ s, feed initState (List.replicate 1000 0x00) = some s ∧ s.baudRate = 125000 ∧
      (jetiFrameComplete s).2.baudRate = 125000 ∧
      (jetiFrameComplete s).2.jetiJunkChars = 1000) :=
  ⟨baud_escalation.2.2.2.1 (List.replicate 1001 0x00) (List.length_replicate _ _)
      (fun c hc => by rw [List.eq_of_mem_replicate hc]; decide),
   baud_escalation.2.2.2.2 (List.replicate 1000 0x00) (List.length_replicate _ _)
      (fun c hc => by rw [List.eq_of_mem_replicate hc]; decide)⟩

/-! ## Latches and the completion flag -/

theorem jetiStore_valid_rate (s s' : State) (c : Nat) (h : jetiStore s c = some s') :
    (s.jetiBaudValid = true → s'.jetiBaudValid = true) ∧ s'.baudRate = s.baudRate ∧
    s'.failsafeCnt = s.failsafeCnt := by
  unfold jetiStore at h
  split at h
  · dsimp only at h
    split at h
    · split at h
      · cases h; exact ⟨fun _ => rfl, rfl, rfl⟩
      · cases h; exact ⟨id, rfl, rfl⟩
    · cases h; exact ⟨id, rfl, rfl⟩
  · cases h

/-- The receive callback never clears the baud-valid flag and never touches
the line rate or the failsafe counter. -/
theorem jetiDataReceive_valid_rate (s s' : State) (c : Nat)
    (h : jetiDataReceive s c = some s') :
    (s.jetiBaudValid = true → s'.jetiBaudValid = true) ∧ s'.baudRate = s.baudRate ∧
    s'.failsafeCnt = s.failsafeCnt := by
  unfold jetiDataReceive at h
  dsimp only at h
  split at h
  · split at h
    · have hh := jetiStore_valid_rate _ _ _ h; exact hh
    · cases h; exact ⟨id, rfl, rfl⟩
  · split at h
    · split at h
      · have hh := jetiStore_valid_rate _ _ _ h; exact hh
      · have hh := jetiStore_valid_rate _ _ _ h; exact hh
    · split at h
      · have hh := jetiStore_valid_rate _ _ _ h; exact hh
      · have hh := jetiStore_valid_rate _ _ _ h; exact hh

/-- With the baud-valid flag set, a poll changes nothing but the completion
flag and the failsafe counter. -/
theorem poll_valid (s : State) (hv : s.jetiBaudValid = true) :
    (jetiFrameComplete s).2.jetiBaudValid = true ∧
    (jetiFrameComplete s).2.baudRate = s.baudRate ∧
    (jetiFrameComplete s).2.jetiJunkChars = s.jetiJunkChars := by
  cases hc : s.jetiRcFrameComplete with
  | true => rw [poll_pending s hc]; exact ⟨hv, rfl, rfl⟩
  | false =>
    rw [poll_idle s hc (fun h' => by rw [hv] at h'; cases h'.1)]
    exact ⟨hv, rfl, rfl⟩

/-- The baud-valid latch within defined behaviour: once `jetiBaudValid` is
true, every receive callback that returns a state and every poll leaves it
true and leaves the line rate as it is (a poll then also leaves the junk
counter alone, whatever its value), and so does every sequence of such
callbacks and polls.  Calls that store outside the buffer are not covered:
see `jetiDataReceive_eq_none_iff`. -/
theorem baud_valid_latch :
    (∀ (s s' : State) (c : Nat), s.jetiBaudValid = true → jetiDataReceive s c = some s' →
      s'.jetiBaudValid = true ∧ s'.baudRate = s.baudRate) ∧
    (∀ s : State, s.jetiBaudValid = true →
      (jetiFrameComplete s).2.jetiBaudValid = true ∧
      (jetiFrameComplete s).2.baudRate = s.baudRate ∧
      (jetiFrameComplete s).2.jetiJunkChars = s.jetiJunkChars) ∧
    (∀ s s' : State, s.jetiBaudValid = true → Steps s s' →
      s'.jetiBaudValid = true ∧ s'.baudRate = s.baudRate) := by
  refine ⟨?_, poll_valid, ?_⟩
  · intro s s' c hv h
    have := jetiDataReceive_valid_rate s s' c h
    exact ⟨this.1 hv, this.2.1⟩
  · intro s s' hv hsteps
    induction hsteps with
    | refl => exact ⟨hv, rfl⟩
    | recv c _ hstep ih =>
      have := jetiDataReceive_valid_rate _ _ c hstep
      exact ⟨this.1 ih.1, this.2.1.trans ih.2⟩
    | poll _ ih =>
      have := poll_valid _ ih.1
      exact ⟨this.1, this.2.1.trans ih.2⟩

theorem baud_valid_latch_witness :
    (jetiFrameComplete { acceptedState with jetiJunkChars := 60000 }).2.jetiBaudValid = true ∧
    (jetiFrameComplete { acceptedState with jetiJunkChars := 60000 }).2.baudRate = 125000 ∧
    (jetiFrameComplete { acceptedState with jetiJunkChars := 60000 }).2.jetiJunkChars
      = 60000 :=
  baud_valid_latch.2.1 { acceptedState with jetiJunkChars := 60000 } (by decide)

theorem jetiStore_sets_complete (s s' : State) (c : Nat) (h : jetiStore s c = some s')
    (h0 : s.jetiRcFrameComplete = false) (h1 : s'.jetiRcFrameComplete = true) :
    s'.jetiFramePos = s'.jetiFrameLen ∧ getcrc16z s'.jetiFrame s'.jetiFrameLen = 0 ∧
    s'.jetiBaudValid = true := by
  unfold jetiStore at h
  split at h
  · dsimp only at h
    split at h
    · next hpos =>
      split at h
      · next hcrc => cases h; exact ⟨hpos, hcrc, rfl⟩
      · cases h; rw [h0] at h1; cases h1
    · cases h; rw [h0] at h1; cases h1
  · cases h

/-- Completion only on zero checksum, within defined behaviour: if a receive
callback that returns a state takes the completion flag from false to true,
then after the call the cursor equals the declared length, the checksum over
the buffer slots below the declared length is zero, and `jetiBaudValid` is
true; a poll never takes the flag from false to true.  (The channel read
`jetiReadRawRC` writes no static object: it is a function of the state.)
Calls that store outside the buffer are not covered: see
`jetiDataReceive_eq_none_iff`. -/
theorem completion_only_on_zero_checksum :
    (∀ (s s' : State) (c : Nat), jetiDataReceive s c = some s' →
      s.jetiRcFrameComplete = false → s'.jetiRcFrameComplete = true →
      s'.jetiFramePos = s'.jetiFrameLen ∧ getcrc16z s'.jetiFrame s'.jetiFrameLen = 0 ∧
      s'.jetiBaudValid = true) ∧
    (∀ s : State, s.jetiRcFrameComplete = false →
      (jetiFrameComplete s).2.jetiRcFrameComplete = false) := by
  constructor
  · intro s s' c h h0 h1
    unfold jetiDataReceive at h
    dsimp only at h
    split at h
    · split at h
      · have hh := jetiStore_sets_complete _ _ _ h rfl h1; exact hh
      · cases h; rw [h0] at h1; cases h1
    · split at h
      · split at h
        · have hh := jetiStore_sets_complete _ _ _ h h0 h1; exact hh
        · have hh := jetiStore_sets_complete _ _ _ h h0 h1; exact hh
      · split at h
        · have hh := jetiStore_sets_complete _ _ _ h h0 h1; exact hh
        · have hh := jetiStore_sets_complete _ _ _ h h0 h1; exact hh
  · intro s h0
    have := (poll_not_complete s h0).2.2.1
    rw [this, h0]

theorem completion_only_on_zero_checksum_witness :
    acceptedState.jetiFramePos = acceptedState.jetiFrameLen ∧
    getcrc16z acceptedState.jetiFrame acceptedState.jetiFrameLen = 0 ∧
    acceptedState.jetiBaudValid = true :=
  completion_only_on_zero_checksum.1 lastByteState acceptedState 0x19 (by rfl) (by decide)
    (by decide)

/-! ## Self-inclusive checksum -/

theorem crcT_zero : crcT 0 = 0 := by decide

/-- Two updates bring the running checksum `c` to zero exactly when the two
bytes are the low and the high byte of `c`, in this order. -/
theorem update_twice_zero (c b1 b2 : Nat) (hc : c < 65536) (h1 : b1 < 256) (h2 : b2 < 256) :
    crc_ccitt_update (crc_ccitt_update c b1) b2 = 0 ↔ (b1 = c % 256 ∧ b2 = c / 256) := by
  have hl : c % 256 < 256 := Nat.mod_lt _ (by decide)
  have hh : c / 256 < 256 := by omega
  have hc1 := crc_ccitt_update_lt c b1
  constructor
  · intro h
    rw [crc_ccitt_update_eq _ b2 hc1 h2] at h
    have hl1 : crc_ccitt_update c b1 % 256 < 256 := Nat.mod_lt _ (by decide)
    have hh1 : crc_ccitt_update c b1 / 256 < 256 := by omega
    have hx : b2 ^^^ crc_ccitt_update c b1 % 256 < 256 := Nat.xor_lt_two_pow (n := 8) h2 hl1
    have e1 := Nat.xor_eq_zero.mp h
    have x0 := crcT_zero_table _ hx (by rw [e1]; exact hh1)
    have hb2 : b2 = crc_ccitt_update c b1 % 256 := Nat.xor_eq_zero.mp x0
    rw [x0, crcT_zero] at e1
    have hsmall : crc_ccitt_update c b1 < 256 := by omega
    have hb2' : b2 = crc_ccitt_update c b1 := by omega
    rw [crc_ccitt_update_eq c b1 hc h1] at hsmall hb2'
    have hy : b1 ^^^ c % 256 < 256 := Nat.xor_lt_two_pow (n := 8) h1 hl
    have hT : crcT (b1 ^^^ c % 256) < 256 := by
      have e : crcT (b1 ^^^ c % 256) = (crcT (b1 ^^^ c % 256) ^^^ c / 256) ^^^ c / 256 :=
        (Nat.xor_cancel_right _ _).symm
      rw [e]
      exact Nat.xor_lt_two_pow (n := 8) hsmall hh
    have y0 := crcT_zero_table _ hy hT
    rw [y0, crcT_zero, Nat.zero_xor] at hb2'
    exact ⟨Nat.xor_eq_zero.mp y0, hb2'⟩
  · rintro ⟨e1, e2⟩
    have hc1e : crc_ccitt_update c b1 = c / 256 := by
      rw [crc_ccitt_update_eq c b1 hc h1, e1, Nat.xor_self, crcT_zero, Nat.zero_xor]
    rw [hc1e, crc_ccitt_update_eq _ b2 (by omega) h2, e2, Nat.mod_eq_of_lt hh, Nat.xor_self,
      crcT_zero, Nat.zero_xor]
    omega

/-- C14. Self-inclusive checksum: for a sequence `m` of at most 65533 bytes
with checksum `c` and two bytes `b1`, `b2`, the checksum of `m` followed by `b1`, `b2` is zero if
and only if `b1` is the low byte of `c` and `b2` its high byte. -/
theorem self_inclusive_checksum (m : List Nat) (hlen : m.length ≤ 65533) (b1 b2 : Nat) (h1 : b1 < 256) (h2 : b2 < 256) :
    getcrc16z (memOf (m ++ [b1, b2])) (m.length + 2) = 0 ↔
      (b1 = getcrc16z (memOf m) m.length % 256 ∧ b2 = getcrc16z (memOf m) m.length / 256) := by
  have hl2 : (m ++ [b1, b2]).length = m.length + 2 := by simp
  have e1 := getcrc16z_memOf m m.length (Nat.le_refl _) (by omega)
  have e2 := getcrc16z_memOf (m ++ [b1, b2]) (m.length + 2) (by rw [hl2]) (by omega)
  rw [List.take_length] at e1
  rw [← hl2, List.take_length, hl2] at e2
  rw [e1, e2, List.foldl_append]
  simp only [List.foldl_cons, List.foldl_nil]
  exact update_twice_zero _ b1 b2 (foldl_update_lt m 0 (by decide)) h1 h2

theorem self_inclusive_checksum_witness :
    getcrc16z (memOf ([0x3E, 0x00, 0x07, 0x00, 0x31] ++ [0x66, 0x19])) (5 + 2) = 0 ↔
      (0x66 = getcrc16z (memOf [0x3E, 0x00, 0x07, 0x00, 0x31]) 5 % 256 ∧
       0x19 = getcrc16z (memOf [0x3E, 0x00, 0x07, 0x00, 0x31]) 5 / 256) :=
  self_inclusive_checksum [0x3E, 0x00, 0x07, 0x00, 0x31] (by decide) 0x66 0x19
    (by decide) (by decide)

/-! ## The update as eight bit steps -/

theorem crcBitStep_eq (x : Nat) : crcBitStep x = (x >>> 1) ^^^ ((x % 2) * 0x8408) := by
  unfold crcBitStep
  rcases Nat.mod_two_eq_zero_or_one x with h | h
  · simp [h]
  · simp [h]

theorem xor_mod_two (a b : Nat) : (a ^^^ b) % 2 = (a % 2) ^^^ (b % 2) :=
  xor_mod_two_pow a b 1

theorem crcBitStep_xor (a b : Nat) : crcBitStep (a ^^^ b) = crcBitStep a ^^^ crcBitStep b := by
  simp only [crcBitStep_eq, shiftRight_xor, xor_mod_two]
  have hm : (a % 2 ^^^ b % 2) * 0x8408 = (a % 2 * 0x8408) ^^^ (b % 2 * 0x8408) := by
    rcases Nat.mod_two_eq_zero_or_one a with ha | ha <;>
      rcases Nat.mod_two_eq_zero_or_one b with hb | hb <;> rw [ha, hb] <;> decide
  rw [hm]
  ac_rfl

theorem crcBitStep_iterate_xor (n : Nat) : ∀ a b : Nat,
    crcBitStep^[n] (a ^^^ b) = crcBitStep^[n] a ^^^ crcBitStep^[n] b := by
  induction n with
  | zero => intro a b; rfl
  | succ n ih =>
    intro a b
    simp only [Function.iterate_succ_apply]
    rw [crcBitStep_xor, ih]

theorem crcBitStep_double (y : Nat) : crcBitStep (2 * y) = y := by
  unfold crcBitStep
  have h : (2 * y) % 2 = 0 := by omega
  rw [if_neg (by omega), Nat.shiftRight_eq_div_pow]
  omega

theorem crcBitStep_iterate_high (h : Nat) : crcBitStep^[8] (256 * h) = h := by
  have e : 256 * h = 2 * (2 * (2 * (2 * (2 * (2 * (2 * (2 * h))))))) := by omega
  rw [e]
  simp only [Function.iterate_succ_apply, Function.iterate_zero_apply, crcBitStep_double]

theorem crcBitStep_iterate_low : ∀ x < 256, crcBitStep^[8] x = crcT x := by
  decide!

theorem crc_ccitt_update_eq_crcByteStep (crc data : Nat) (hc : crc < 65536)
    (hd : data < 256) : crc_ccitt_update crc data = crcByteStep crc data := by
  have hl : crc % 256 < 256 := Nat.mod_lt _ (by decide)
  have hx : data ^^^ crc % 256 < 256 := Nat.xor_lt_two_pow (n := 8) hd hl
  have hsplit : crc = (256 * (crc / 256)) ^^^ (crc % 256) := by
    have h1 : 2 ^ 8 * (crc / 256) + crc % 256 = 2 ^ 8 * (crc / 256) ||| crc % 256 :=
      Nat.mul_add_lt_is_or (show crc % 256 < 2 ^ 8 from hl) (crc / 256)
    have h2 : (crc / 256) <<< 8 ||| crc % 256 = (crc / 256) <<< 8 ^^^ crc % 256 :=
      shiftLeft8_or_eq_xor _ _ hl
    rw [Nat.shiftLeft_eq, Nat.mul_comm] at h2
    have h3 : (256 * (crc / 256)) ^^^ (crc % 256) = 256 * (crc / 256) + crc % 256 :=
      (h1.trans h2).symm
    rw [h3]
    omega
  unfold crcByteStep
  rw [crc_ccitt_update_eq crc data hc hd]
  conv => rhs; rw [hsplit, Nat.xor_assoc]
  rw [crcBitStep_iterate_xor, crcBitStep_iterate_high, Nat.xor_comm (crc % 256) data,
    crcBitStep_iterate_low _ hx, Nat.xor_comm]

theorem crcByteStep_lt (crc data : Nat) (hc : crc < 65536) (hd : data < 256) :
    crcByteStep crc data < 65536 := by
  rw [← crc_ccitt_update_eq_crcByteStep crc data hc hd]
  exact crc_ccitt_update_lt crc data

theorem foldl_update_eq_crcByteStep (l : List Nat) (hb : ∀ x ∈ l, x < 256) : ∀ c, c < 65536 →
    l.foldl crc_ccitt_update c = l.foldl crcByteStep c := by
  induction l with
  | nil => intro c _; rfl
  | cons a l ih =>
    intro c hc
    have ha : a < 256 := hb a (List.mem_cons_self a l)
    simp only [List.foldl_cons]
    rw [← crc_ccitt_update_eq_crcByteStep c a hc ha]
    exact ih (fun x hx => hb x (List.mem_cons_of_mem a hx)) _ (crc_ccitt_update_lt c a)

/-- C19. The checksum update is the reflected CRC-16-CCITT byte step: for every
16-bit `crc` and every byte `data`, `crc_ccitt_update crc data` is `data`
XORed into `crc` followed by eight bit steps `if x is odd then (x >> 1) XOR
0x8408 else x >> 1`; hence `getcrc16z` is the CRC-16 with reflected polynomial
`0x8408`, initial value 0 and no final XOR. -/
theorem update_is_reflected_crc16 :
    (∀ crc data, crc < 65536 → data < 256 →
      crc_ccitt_update crc data = crcByteStep crc data) ∧
    (∀ (p : List Nat) (len : Nat), (∀ x ∈ p, x < 256) → len ≤ p.length → len < 65536 →
      getcrc16z (memOf p) len = crc16Reflected (p.take len)) := by
  refine ⟨crc_ccitt_update_eq_crcByteStep, ?_⟩
  intro p len hb hlen h16
  rw [getcrc16z_memOf p len hlen h16]
  exact foldl_update_eq_crcByteStep _ (fun x hx => hb x (List.mem_of_mem_take hx)) 0
    (by decide)

theorem update_is_reflected_crc16_witness :
    crc_ccitt_update 0xBEEF 0xA5 = crcByteStep 0xBEEF 0xA5 ∧
    getcrc16z (memOf [0x3E, 0x00, 0x07, 0x00, 0x31]) 5
      = crc16Reflected ([0x3E, 0x00, 0x07, 0x00, 0x31].take 5) :=
  ⟨update_is_reflected_crc16.1 0xBEEF 0xA5 (by decide) (by decide),
   update_is_reflected_crc16.2 [0x3E, 0x00, 0x07, 0x00, 0x31] 5 (by decide) (by decide)
     (by decide)⟩

/-! ## Length limits and the baud switch -/

/-- C17 (the code at the failing input). The six bytes `0x3E, 0x01, 0x06, 0x41,
0x31, 0xBF` declare the length 6, carry the RC type code and have checksum
zero: the flag is false before the sixth byte and the call that receives it
sets the flag, with a declared length below `JETI_FRAME_MINLEN`. -/
theorem short_frame_accepted :
    (feed initState [0x3E, 0x01, 0x06, 0x41, 0x31]).map
        (fun s => (s.jetiRcFrameComplete, s.jetiFrameBegun, s.jetiFramePos, s.jetiFrameLen))
      = some (false, true, 5, 6) ∧
    (feed initState [0x3E, 0x01, 0x06, 0x41, 0x31, 0xBF]).map
        (fun s => (s.jetiRcFrameComplete, s.jetiFramePos, s.jetiFrameLen))
      = some (true, 6, 6) ∧
    ¬ (JETI_FRAME_MINLEN ≤ 6) := by
  refine ⟨by decide, by decide, by decide⟩

/-- The state after `n` junk bytes and one start marker, from the initial
state. -/
theorem feed_junk_then_marker (n : Nat) (hn : n < 65536) :
    feed initState (List.replicate n 0x00 ++ [JETI_RCFRAME_BEGIN]) = some { initState with
      jetiJunkChars := n
      jetiFrameBegun := true
      jetiFramePos := 1
      jetiFrameLen := JETI_FRAME_MINLEN
      jetiFrame := fun i => if i = 0 then JETI_RCFRAME_BEGIN else 0 } := by
  have h1 := feed_junk_count (List.replicate n 0x00) initState rfl
    (fun c hc => by rw [List.eq_of_mem_replicate hc]; decide)
    (by rw [List.length_replicate]; show 0 + n < 65536; omega)
  rw [feed_append, h1, Option.some_bind, feed_singleton, receive_start _ rfl,
    List.length_replicate]
  simp [initState]

/-- C18 (counterexample). After 1001 junk bytes and one start marker the state
is reachable, the attempt is open, and the poll switches the rate from 125000
to 250000; the attempt is still open after that poll. -/
theorem baud_switch_counterexample :
    ∃ s, feed initState (List.replicate 1001 0x00 ++ [0x3E]) = some s ∧ Reachable s ∧
      s.jetiRcFrameComplete = false ∧ s.jetiBaudValid = false ∧ s.jetiJunkChars > 1000 ∧
      s.baudRate = 125000 ∧ (jetiFrameComplete s).2.baudRate = 250000 ∧
      (jetiFrameComplete s).2.jetiFrameBegun = true := by
  have hfeed := feed_junk_then_marker 1001 (by decide)
  refine ⟨_, hfeed, reachable_feed _ _ _ Reachable.init hfeed, rfl, rfl, by decide, rfl, ?_, ?_⟩
  · rw [poll_switch _ rfl rfl (by decide)]; rfl
  · rw [poll_switch _ rfl rfl (by decide)]

/-- C18 (amended). A poll that performs a baud switch leaves the assembler as
it was: `jetiFrameBegun`, the cursor, the declared length and the buffer are
unchanged, so the assembler is Seeking after the switch exactly when it was
Seeking before it. -/
theorem baud_switch_keeps_assembler (s : State) (hc : s.jetiRcFrameComplete = false)
    (hv : s.jetiBaudValid = false) (hj : s.jetiJunkChars > 1000) :
    (jetiFrameComplete s).2.baudRate ≠ s.baudRate ∧
    (jetiFrameComplete s).2.jetiFrameBegun = s.jetiFrameBegun ∧
    (jetiFrameComplete s).2.jetiFramePos = s.jetiFramePos ∧
    (jetiFrameComplete s).2.jetiFrameLen = s.jetiFrameLen ∧
    (jetiFrameComplete s).2.jetiFrame = s.jetiFrame := by
  rw [poll_switch s hc hv hj]
  refine ⟨?_, rfl, rfl, rfl, rfl⟩
  dsimp only
  simp only [JETI_BAUD_SLOW, JETI_BAUD_FAST]
  split <;> omega

theorem baud_switch_keeps_assembler_witness :
    (jetiFrameComplete junkThenMarker).2.baudRate ≠ junkThenMarker.baudRate ∧
    (jetiFrameComplete junkThenMarker).2.jetiFrameBegun = junkThenMarker.jetiFrameBegun ∧
    (jetiFrameComplete junkThenMarker).2.jetiFramePos = junkThenMarker.jetiFramePos ∧
    (jetiFrameComplete junkThenMarker).2.jetiFrameLen = junkThenMarker.jetiFrameLen ∧
    (jetiFrameComplete junkThenMarker).2.jetiFrame = junkThenMarker.jetiFrame :=
  baud_switch_keeps_assembler junkThenMarker rfl rfl (by decide)

/-! ## Attempts that stay open, and frames that fail the checksum -/

/-- A byte received in the middle of an attempt whose length byte declares `D`
and whose cursor does not meet the declared length on this byte: the byte is
stored and the attempt goes on. -/
theorem receive_open (D k c : Nat) (hD : D ≤ 70) (h1 : 1 ≤ k) (hk : k < 70)
    (hc : c < 256) (h2 : k = 2 → c = D) (h4 : k = 4 → c = JETI_PACKET_RC)
    (hne : 2 ≤ k → k + 1 ≠ D)
    (s : State) (hb : s.jetiFrameBegun = true)
    (hp : s.jetiFramePos = k) (hl : s.jetiFrameLen = if k ≤ 2 then 7 else D) :
    jetiDataReceive s c = some { s with
      jetiFramePos := k + 1
      jetiFrameLen := if k + 1 ≤ 2 then 7 else D
      jetiFrame := fun i => if i = k then c else s.jetiFrame i } := by
  have hc16 : c % 65536 = c := Nat.mod_eq_of_lt (by omega)
  have hc8 : c % 256 = c := Nat.mod_eq_of_lt hc
  have hk8 : (k + 1) % 256 = k + 1 := Nat.mod_eq_of_lt (by omega)
  obtain ⟨begun, pos, frame, complete, valid, junk, len, fs, baud⟩ := s
  simp only at hb hp hl
  subst hb hp
  by_cases k2 : pos = 2
  · subst k2
    have := h2 rfl
    subst this
    have h70 : ¬ (70 < c) := by omega
    have h3 : ¬ (3 = c) := by have := hne (by omega); omega
    simp [jetiDataReceive, jetiStore, JETI_FRAME_MAXLEN, hc16, hc8, h70, h3]
  · by_cases k4 : pos = 4
    · subst k4
      have := h4 rfl
      subst this
      have hl' : len = D := by simpa using hl
      subst hl'
      have h5 : ¬ (5 = len) := by have := hne (by omega); omega
      simp [jetiDataReceive, jetiStore, JETI_FRAME_MAXLEN, JETI_PACKET_RC, h5]
    · have hne' : ¬ (pos + 1 = len) := by
        rw [hl]; split
        · omega
        · exact hne (by omega)
      have hl' : len = if pos + 1 ≤ 2 then 7 else D := by
        rw [hl]
        by_cases hp1 : pos = 1
        · subst hp1; simp
        · have a : ¬ (pos ≤ 2) := by omega
          have b : ¬ (pos + 1 ≤ 2) := by omega
          simp [a, b]
      simp [jetiDataReceive, jetiStore, JETI_FRAME_MAXLEN, hc16, hc8, hk8, hk, k2, k4, hne']
      simpa using hl'

/-- The first `k` bytes of a sequence `B` that begins with the start marker,
declares the length `D ≤ 70` at offset 2 and carries the RC type code at
offset 4, fed from a Seeking state: as long as the cursor does not meet the
declared length, the attempt stays open and the completion flag is false. -/
theorem feed_open (D : Nat) (B : List Nat) (hD : D ≤ 70) (hbytes : ∀ x ∈ B, x < 256)
    (h0 : B.getD 0 0 = JETI_RCFRAME_BEGIN) (h2 : B.getD 2 0 = D)
    (h4 : B.getD 4 0 = JETI_PACKET_RC) (s : State) (hs : s.jetiFrameBegun = false) :
    ∀ k, 1 ≤ k → k ≤ B.length → k ≤ 70 → (∀ j, 3 ≤ j → j ≤ k → j ≠ D) →
    ∃ s', feed s (B.take k) = some s' ∧ AssemblingTo D B s k s' := by
  intro k
  induction k with
  | zero => intro h; omega
  | succ k ih =>
    intro _ hk hk70 hne
    by_cases hk0 : k = 0
    · subst hk0
      have e : feed s (B.take (0 + 1)) = jetiDataReceive s JETI_RCFRAME_BEGIN := by
        rw [take_succ_getD B 0 (by omega), List.take_zero, List.nil_append, feed_singleton, h0]
      rw [receive_start s hs] at e
      refine ⟨_, e, rfl, rfl, rfl, rfl, ?_, rfl, rfl, rfl, rfl⟩
      intro i hi
      have : i = 0 := by omega
      subst this
      simp only [if_true]
      exact h0.symm
    · obtain ⟨s1, hfeed, hb, hp, hcomp, hl, hbuf, hv, hj, hfs, hbr⟩ :=
        ih (by omega) (by omega) (by omega) (fun j h3 hj => hne j h3 (by omega))
      have e : feed s (B.take (k + 1)) = jetiDataReceive s1 (B.getD k 0) := by
        rw [take_succ_getD B k (by omega), feed_append, hfeed, Option.some_bind, feed_singleton]
      rw [receive_open D k (B.getD k 0) hD (by omega) (by omega)
        (getD_lt_256 hbytes k) (fun e => by rw [e]; exact h2) (fun e => by rw [e]; exact h4)
        (fun h2k => hne (k + 1) (by omega) (Nat.le_refl _))
        s1 hb hp hl] at e
      refine ⟨_, e, hb, rfl, hcomp, rfl, ?_, hv, hj, hfs, hbr⟩
      intro i hi
      by_cases hik : i = k
      · simp [hik]
      · simp only [hik, if_false]
        exact hbuf i (by omega)

/-- The last byte of a frame of declared length `L` whose checksum over the
completed buffer is not zero: the attempt ends, the declared length is added
to the junk counter and the completion flag is left as it is. -/
theorem receive_last_bad (L k c : Nat) (hmin : 7 ≤ L) (hmax : L ≤ 70) (hk : k + 1 = L)
    (hc : c < 256) (s : State) (hb : s.jetiFrameBegun = true)
    (hp : s.jetiFramePos = k) (hl : s.jetiFrameLen = L)
    (hcrc : getcrc16z (fun i => if i = k then c else s.jetiFrame i) L ≠ 0) :
    jetiDataReceive s c = some { s with
      jetiFramePos := L
      jetiFrame := fun i => if i = k then c else s.jetiFrame i
      jetiJunkChars := (s.jetiJunkChars + L) % 65536
      jetiFrameBegun := false } := by
  have hc16 : c % 65536 = c := Nat.mod_eq_of_lt (by omega)
  have hc8 : c % 256 = c := Nat.mod_eq_of_lt hc
  have hk8 : (k + 1) % 256 = k + 1 := Nat.mod_eq_of_lt (by omega)
  have hk70 : k < 70 := by omega
  have k2 : ¬ (k = 2) := by omega
  have k4 : ¬ (k = 4) := by omega
  obtain ⟨begun, pos, frame, complete, valid, junk, len, fs, baud⟩ := s
  simp only at hb hp hl hcrc
  subst hb hp hl hk
  simp [jetiDataReceive, jetiStore, JETI_FRAME_MAXLEN, hc16, hc8, hk8, hk70, k2, k4, hcrc]

/-- A sequence with the header of an RC frame (start marker, its own length
between 7 and 70 at offset 2, RC type code at offset 4) whose checksum is not
zero, fed from a Seeking state: the attempt runs to the last byte, fails the
checksum and ends with the completion flag false. -/
theorem feed_header_bad_crc (B : List Nat) (hmin : 7 ≤ B.length) (hmax : B.length ≤ 70)
    (hbytes : ∀ x ∈ B, x < 256) (h0 : B.getD 0 0 = JETI_RCFRAME_BEGIN)
    (h2 : B.getD 2 0 = B.length) (h4 : B.getD 4 0 = JETI_PACKET_RC)
    (hcrc : getcrc16z (memOf B) B.length ≠ 0) (s : State) (hs : s.jetiFrameBegun = false) :
    ∃ s', feed s B = some s' ∧ s'.jetiRcFrameComplete = false ∧ s'.jetiFrameBegun = false := by
  obtain ⟨s1, hfeed, hb, hp, hcomp, hl, hbuf, _⟩ :=
    feed_open B.length B hmax hbytes h0 h2 h4 s hs (B.length - 1) (by omega) (by omega)
      (by omega) (fun j _ hj => by omega)
  have hk : B.length - 1 + 1 = B.length := by omega
  have hl' : s1.jetiFrameLen = B.length := by
    rw [hl]; simp; omega
  have hbuf' : ∀ i, i < B.length →
      (fun i => if i = B.length - 1 then B.getD (B.length - 1) 0 else s1.jetiFrame i) i
        = memOf B i := by
    intro i hi
    by_cases hik : i = B.length - 1
    · simp [hik, memOf]
    · simp only [hik, if_false]
      exact hbuf i (by omega)
  have hcrc' : getcrc16z (fun i => if i = B.length - 1 then B.getD (B.length - 1) 0
      else s1.jetiFrame i) B.length ≠ 0 := by
    rw [getcrc16z_congr _ (memOf B) B.length (by omega) hbuf']
    exact hcrc
  have e : feed s B = jetiDataReceive s1 (B.getD (B.length - 1) 0) := by
    conv => lhs; rw [← List.take_length B, ← hk, take_succ_getD B (B.length - 1) (by omega)]
    rw [feed_append, hfeed, Option.some_bind, feed_singleton]
  rw [receive_last_bad B.length (B.length - 1) (B.getD (B.length - 1) 0) hmin hmax hk
    (getD_lt_256 hbytes _) s1 hb hp hl' hcrc'] at e
  exact ⟨_, e, hcomp, rfl⟩

/-- A valid RC frame whose type byte is replaced by `t ≠ 0x31`, fed from a
Seeking state, `k ≥ 5` bytes of it: if none of the bytes after the type byte,
up to the `k`-th, is the start marker, the assembler is Seeking afterwards and
the completion flag is false. -/
theorem feed_bad_type_frame (F : List Nat) (hF : ValidRcFrame F) (t : Nat) (ht : t < 256)
    (ht' : t ≠ JETI_PACKET_RC) (s : State) (hs : s.jetiFrameBegun = false)
    (k : Nat) (h5 : 5 ≤ k) (hk : k ≤ F.length)
    (hno : ∀ j, 5 ≤ j → j < k → F.getD j 0 ≠ JETI_RCFRAME_BEGIN) :
    ∃ s', feed s ((F.set 4 t).take k) = some s' ∧ s'.jetiRcFrameComplete = false ∧
      s'.jetiFrameBegun = false := by
  have hmin : 7 ≤ F.length := hF.1
  have hbytes := hF.2.2.1
  rw [set_take_split F t k (by omega) h5]
  obtain ⟨s1, hfeed, hb, hp, hcomp, hl, _⟩ := feed_valid_initial F hF s hs 4 (by omega) (by omega)
  have hl5 : s1.jetiFrameLen ≠ 5 := by
    rw [hl]; simp; omega
  have hstep := receive_bad_type t ht ht' s1 hb hp hl5
  have hjunk : ∀ c ∈ (F.drop 5).take (k - 5), c < 65536 ∧ c ≠ JETI_RCFRAME_BEGIN := by
    intro c hc
    obtain ⟨j, hj, rfl⟩ := List.getElem_of_mem hc
    have hj' : j < k - 5 := by
      have := hj; rw [List.length_take] at this; omega
    have hjF : 5 + j < F.length := by omega
    have e : ((F.drop 5).take (k - 5))[j] = F.getD (5 + j) 0 := by
      rw [List.getD_eq_getElem _ _ hjF]
      simp
    rw [e]
    exact ⟨by have := getD_lt_256 hbytes (5 + j); omega, hno (5 + j) (by omega) (by omega)⟩
  obtain ⟨s3, hfeed3, hb3, hcomp3, _⟩ := feed_junk _
    { s1 with
      jetiFrameBegun := false
      jetiFramePos := 5
      jetiFrame := fun i => if i = 4 then t else s1.jetiFrame i } rfl hjunk
  refine ⟨s3, ?_, ?_, hb3⟩
  · rw [feed_append, hfeed, Option.some_bind]
    simp only [feed, hstep, Option.some_bind]
    exact hfeed3
  · rw [hcomp3]; exact hcomp

/-! ## Resynchronisation -/

/-- C16 (amended). A valid RC frame with its type byte replaced by `t ≠ 0x31`,
none of whose bytes after the type byte is the start marker `0x3E`, followed
by a valid RC frame `G`, fed from a Seeking state: `G` is accepted on its last
byte and the buffer slots `[0, |G|)` hold `G`. -/
theorem resync_after_rejected (F : List Nat) (hF : ValidRcFrame F) (t : Nat) (ht : t < 256)
    (ht' : t ≠ JETI_PACKET_RC)
    (hno : ∀ j, 5 ≤ j → j < F.length → F.getD j 0 ≠ JETI_RCFRAME_BEGIN)
    (G : List Nat) (hG : ValidRcFrame G) (s : State) (hs : s.jetiFrameBegun = false) :
    ∃ s', feed s (F.set 4 t ++ G) = some s' ∧ s'.jetiRcFrameComplete = true ∧
      ∀ i, i < G.length → s'.jetiFrame i = G.getD i 0 := by
  have hmin : 7 ≤ F.length := hF.1
  obtain ⟨s1, hfeed, _, hb1⟩ :=
    feed_bad_type_frame F hF t ht ht' s hs F.length (by omega) (Nat.le_refl _) hno
  rw [List.take_of_length_le (by simp)] at hfeed
  obtain ⟨s2, hfeed2, hc2, _, _, _, hbuf, _⟩ := feed_valid_frame G hG s1 hb1
  refine ⟨s2, ?_, hc2, hbuf⟩
  rw [feed_append, hfeed, Option.some_bind, hfeed2]

theorem resync_after_rejected_witness :
    ∃ s', feed staleSeeking
        ([0x3E, 0x00, 0x07, 0x00, 0x31, 0x66, 0x19].set 4 0x3A
          ++ [0x3E, 0x20, 0x07, 0x00, 0x31, 0x35, 0x96]) = some s' ∧
      s'.jetiRcFrameComplete = true ∧
      ∀ i, i < [0x3E, 0x20, 0x07, 0x00, 0x31, 0x35, 0x96].length →
        s'.jetiFrame i = [0x3E, 0x20, 0x07, 0x00, 0x31, 0x35, 0x96].getD i 0 :=
  resync_after_rejected [0x3E, 0x00, 0x07, 0x00, 0x31, 0x66, 0x19] (by decide) 0x3A
    (by decide) (by decide) (by decide) [0x3E, 0x20, 0x07, 0x00, 0x31, 0x35, 0x96] (by decide)
    staleSeeking rfl

/-- C16 (counterexample). The valid 8-byte RC frame `3E 00 08 00 31 6E A8 3E`
ends in a checksum byte equal to the start marker.  With its type byte
replaced by `0x00` that last byte opens a fresh attempt, the bytes of the valid
RC frame `3E 20 07 00 31 35 96` that follows are taken as the body of that
attempt, and the completion flag is false after the last byte. -/
theorem resync_counterexample :
    ValidRcFrame [0x3E, 0x00, 0x08, 0x00, 0x31, 0x6E, 0xA8, 0x3E] ∧
    ValidRcFrame [0x3E, 0x20, 0x07, 0x00, 0x31, 0x35, 0x96] ∧
    initState.jetiFrameBegun = false ∧
    (feed initState ([0x3E, 0x00, 0x08, 0x00, 0x31, 0x6E, 0xA8, 0x3E].set 4 0x00)).map
        (fun s => (s.jetiFrameBegun, s.jetiFramePos)) = some (true, 1) ∧
    (feed initState ([0x3E, 0x00, 0x08, 0x00, 0x31, 0x6E, 0xA8, 0x3E].set 4 0x00
        ++ [0x3E, 0x20, 0x07, 0x00, 0x31, 0x35, 0x96])).map
        (fun s => s.jetiRcFrameComplete) = some false := by
  refine ⟨by decide, by decide, rfl, by decide, by decide⟩

/-! ## Bit flips and the assembler -/

theorem flipBit_length (F : List Nat) (i k : Nat) : (flipBit F i k).length = F.length := by
  simp [flipBit]

theorem flipBit_getD_ne (F : List Nat) (i k j : Nat) (h : j ≠ i) :
    (flipBit F i k).getD j 0 = F.getD j 0 := by
  unfold flipBit
  simp only [List.getD_eq_getElem?_getD]
  rw [List.getElem?_set_ne (Ne.symm h)]

theorem flipBit_getD_self (F : List Nat) (i k : Nat) (hi : i < F.length) :
    (flipBit F i k).getD i 0 = F.getD i 0 ^^^ 2 ^ k := by
  unfold flipBit
  rw [List.getD_eq_getElem _ _ (by simpa using hi)]
  simp

theorem flipBit_bytes (F : List Nat) (hb : ∀ x ∈ F, x < 256) (i k : Nat) (hk : k < 8) :
    ∀ x ∈ flipBit F i k, x < 256 := by
  intro x hx
  rcases List.mem_or_eq_of_mem_set hx with h | h
  · exact hb x h
  · rw [h]
    exact Nat.xor_lt_two_pow (n := 8) (getD_lt_256 hb i) (two_pow_lt_256 hk)

/-- A single flipped bit in a sequence with checksum zero gives a checksum
that is not zero. -/
theorem flip_checksum_ne_zero (F : List Nat) (hb : ∀ x ∈ F, x < 256)
    (hlen : F.length < 65536) (h0 : getcrc16z (memOf F) F.length = 0)
    (i k : Nat) (hi : i < F.length) (hk : k < 8) :
    getcrc16z (memOf (flipBit F i k)) F.length ≠ 0 := by
  have hlen' : (flipBit F i k).length = F.length := flipBit_length F i k
  have e1 := getcrc16z_memOf F F.length (Nat.le_refl _) hlen
  have e2 := getcrc16z_memOf (flipBit F i k) F.length (by rw [hlen']) hlen
  rw [List.take_length] at e1
  rw [← hlen', List.take_length, hlen'] at e2
  rw [e1] at h0
  rw [e2, flipBit_eq F i k hi]
  have hF : F = F.take i ++ F[i] :: F.drop (i + 1) := by
    rw [List.getElem_cons_drop, List.take_append_drop]
  have hbi : F[i] < 256 := hb _ (List.getElem_mem hi)
  have hbi' : F[i] ^^^ 2 ^ k < 256 := Nat.xor_lt_two_pow (n := 8) hbi (two_pow_lt_256 hk)
  have hcA : (F.take i).foldl crc_ccitt_update 0 < 65536 := foldl_update_lt _ 0 (by decide)
  intro h
  have h0' : (F.take i ++ F[i] :: F.drop (i + 1)).foldl crc_ccitt_update 0 = 0 := by
    rw [← hF]; exact h0
  rw [List.foldl_append, List.foldl_cons] at h0' h
  replace h := h.trans h0'.symm
  have h1 := foldl_update_inj (F.drop (i + 1)) (fun x hx => hb x (List.mem_of_mem_drop hx))
    _ _ (crc_ccitt_update_lt _ _) (crc_ccitt_update_lt _ _) h
  exact xor_two_pow_ne _ _ (crc_ccitt_update_inj_data hcA hbi' hbi h1)

/-- Every byte of a sequence, found through its index. -/
theorem forall_mem_of_forall_getD (B : List Nat) (P : Nat → Prop)
    (h : ∀ j, j < B.length → P (B.getD j 0)) : ∀ c ∈ B, P c := by
  intro c hc
  obtain ⟨j, hj, rfl⟩ := List.getElem_of_mem hc
  have := h j hj
  rwa [List.getD_eq_getElem _ _ hj] at this

theorem set_two_split (F : List Nat) (v : Nat) (h : 3 ≤ F.length) :
    F.set 2 v = [F.getD 0 0, F.getD 1 0, v] ++ F.drop 3 := by
  match F, h with
  | a :: b :: c :: rest, _ => rfl

/-- C15 (amended). A valid RC frame with bit `k` of byte `i` flipped, fed from a
Seeking state with the completion flag false, leaves the flag false after the
last byte in each of these cases: the flip is outside the start marker, the
length byte and the type byte; the flip is in the start marker or in the type
byte and no later byte of the frame is the start marker `0x3E`; the flip is
in the length byte and the declared length becomes larger but at most 70; the
flip is in the length byte, the declared length becomes larger than 70 and no
later byte of the frame is the start marker. -/
theorem bitflip_assembler (F : List Nat) (hF : ValidRcFrame F) (i k : Nat)
    (hi : i < F.length) (hk : k < 8) (s : State) (hs : s.jetiFrameBegun = false)
    (hc : s.jetiRcFrameComplete = false)
    (hcase : (i ≠ 0 ∧ i ≠ 2 ∧ i ≠ 4) ∨
      ((i = 0 ∨ i = 4) ∧ ∀ j, i < j → j < F.length → F.getD j 0 ≠ JETI_RCFRAME_BEGIN) ∨
      (i = 2 ∧ F.length < F.length ^^^ 2 ^ k ∧ F.length ^^^ 2 ^ k ≤ 70) ∨
      (i = 2 ∧ 70 < F.length ^^^ 2 ^ k ∧
        ∀ j, 2 < j → j < F.length → F.getD j 0 ≠ JETI_RCFRAME_BEGIN)) :
    ∃ s', feed s (flipBit F i k) = some s' ∧ s'.jetiRcFrameComplete = false := by
  obtain ⟨hmin, hmax, hbytes, h0, h2, h4, hcrc⟩ := hF
  simp only [JETI_FRAME_MINLEN, JETI_FRAME_MAXLEN] at hmin hmax
  have hlen := flipBit_length F i k
  have hB := flipBit_bytes F hbytes i k hk
  rcases hcase with ⟨i0, i2, i4⟩ | ⟨hi04, hno⟩ | ⟨rfl, hgt, hle⟩ | ⟨rfl, hgt, hno⟩
  · -- the header is intact and the checksum fails
    obtain ⟨s', hfeed, hcomp, _⟩ := feed_header_bad_crc (flipBit F i k)
      (by rw [hlen]; exact hmin) (by rw [hlen]; exact hmax) hB
      (by rw [flipBit_getD_ne F i k 0 (Ne.symm i0)]; exact h0)
      (by rw [flipBit_getD_ne F i k 2 (Ne.symm i2), hlen]; exact h2)
      (by rw [flipBit_getD_ne F i k 4 (Ne.symm i4)]; exact h4)
      (by rw [hlen]; exact flip_checksum_ne_zero F hbytes (by omega) hcrc i k hi hk)
      s hs
    exact ⟨s', hfeed, hcomp⟩
  · rcases hi04 with rfl | rfl
    · -- the start marker is gone: every byte is junk
      have hjunk : ∀ c ∈ flipBit F 0 k, c < 65536 ∧ c ≠ JETI_RCFRAME_BEGIN := by
        apply forall_mem_of_forall_getD
        intro j hj
        rw [hlen] at hj
        refine ⟨by have := getD_lt_256 hB j; omega, ?_⟩
        by_cases hj0 : j = 0
        · subst hj0
          rw [flipBit_getD_self F 0 k hi, h0]
          exact xor_two_pow_ne _ _
        · rw [flipBit_getD_ne F 0 k j hj0]
          exact hno j (by omega) hj
      obtain ⟨s', hfeed, _, hcomp, _⟩ := feed_junk _ s hs hjunk
      exact ⟨s', hfeed, hcomp.trans hc⟩
    · -- the type byte is not the RC code any more
      have ht : F.getD 4 0 ^^^ 2 ^ k < 256 :=
        Nat.xor_lt_two_pow (n := 8) (getD_lt_256 hbytes 4) (two_pow_lt_256 hk)
      have ht' : F.getD 4 0 ^^^ 2 ^ k ≠ JETI_PACKET_RC := by
        rw [h4]; exact xor_two_pow_ne _ _
      obtain ⟨s', hfeed, hcomp, _⟩ := feed_bad_type_frame F
        ⟨hmin, hmax, hbytes, h0, h2, h4, hcrc⟩ _ ht ht' s hs F.length (by omega)
        (Nat.le_refl _) (fun j h5 hj => hno j (by omega) hj)
      rw [List.take_of_length_le (by simp)] at hfeed
      exact ⟨s', hfeed, hcomp⟩
  · -- the declared length grew: the attempt is still open after the last byte
    obtain ⟨s', hfeed, hA⟩ := feed_open (F.length ^^^ 2 ^ k) (flipBit F 2 k) hle hB
      (by rw [flipBit_getD_ne F 2 k 0 (by decide)]; exact h0)
      (by rw [flipBit_getD_self F 2 k hi, h2])
      (by rw [flipBit_getD_ne F 2 k 4 (by decide)]; exact h4)
      s hs F.length (by omega) (by rw [hlen]) hmax (fun j _ hj => by omega)
    rw [List.take_of_length_le (by rw [hlen])] at hfeed
    exact ⟨s', hfeed, hA.2.2.1⟩
  · -- the declared length is oversized: abort, and the rest is junk
    have hn : F.getD 2 0 ^^^ 2 ^ k < 256 :=
      Nat.xor_lt_two_pow (n := 8) (getD_lt_256 hbytes 2) (two_pow_lt_256 hk)
    rw [h2] at hn
    have hsplit : flipBit F 2 k
        = [JETI_RCFRAME_BEGIN, F.getD 1 0, F.length ^^^ 2 ^ k] ++ F.drop 3 := by
      unfold flipBit
      rw [set_two_split F _ (by omega), h0, h2]
    have hfeed1 := feed_oversized s hs (F.getD 1 0) (F.length ^^^ 2 ^ k)
      (getD_lt_256 hbytes 1) (by omega) (by omega)
    have hjunk : ∀ c ∈ F.drop 3, c < 65536 ∧ c ≠ JETI_RCFRAME_BEGIN := by
      apply forall_mem_of_forall_getD
      intro j hj
      have hj' : 3 + j < F.length := by
        rw [List.length_drop] at hj; omega
      have e : (F.drop 3).getD j 0 = F.getD (3 + j) 0 := by
        rw [List.getD_eq_getElem _ _ hj, List.getD_eq_getElem _ _ hj']
        simp
      rw [e]
      exact ⟨by have := getD_lt_256 hbytes (3 + j); omega, hno (3 + j) (by omega) hj'⟩
    obtain ⟨s1, hs1, hb1, hc1⟩ : ∃ s1, feed s [JETI_RCFRAME_BEGIN, F.getD 1 0,
        F.length ^^^ 2 ^ k] = some s1 ∧ s1.jetiFrameBegun = false ∧
        s1.jetiRcFrameComplete = false := ⟨_, hfeed1, rfl, rfl⟩
    obtain ⟨s', hfeed2, _, hcomp, _⟩ := feed_junk (F.drop 3) s1 hb1 hjunk
    refine ⟨s', ?_, hcomp.trans hc1⟩
    rw [hsplit, feed_append, hs1, Option.some_bind]
    exact hfeed2

theorem bitflip_assembler_witness :
    ∃ s', feed initState (flipBit [0x3E, 0x00, 0x07, 0x00, 0x31, 0x66, 0x19] 5 0) = some s' ∧
      s'.jetiRcFrameComplete = false :=
  bitflip_assembler [0x3E, 0x00, 0x07, 0x00, 0x31, 0x66, 0x19] (by decide) 5 0 (by decide)
    (by decide) initState rfl rfl (Or.inl (by decide))

/-- C15 (counterexample). The valid 15-byte RC frame below begins, once bit 3 of
its length byte is flipped (15 becomes 7), with the valid 7-byte RC frame `3E
00 07 00 31 66 19`: that frame is accepted on the seventh byte, the remaining
eight bytes are junk, and the completion flag is true after the last byte. -/
theorem bitflip_assembler_counterexample :
    ValidRcFrame [0x3E, 0x00, 0x0F, 0x00, 0x31, 0x66, 0x19, 0x00, 0x00, 0x00, 0x00, 0x00,
      0x00, 0xAA, 0xBC] ∧
    initState.jetiFrameBegun = false ∧ initState.jetiRcFrameComplete = false ∧
    (feed initState (flipBit [0x3E, 0x00, 0x0F, 0x00, 0x31, 0x66, 0x19, 0x00, 0x00, 0x00,
      0x00, 0x00, 0x00, 0xAA, 0xBC] 2 3)).map (fun s => s.jetiRcFrameComplete) = some true := by
  refine ⟨by decide, rfl, rfl, by decide⟩

/-! ## Calls that store outside the buffer -/

theorem jetiStore_eq_none_iff (s : State) (c : Nat) :
    jetiStore s c = none ↔ JETI_FRAME_MAXLEN ≤ s.jetiFramePos := by
  unfold jetiStore
  by_cases hp : s.jetiFramePos < JETI_FRAME_MAXLEN
  · rw [if_pos hp]
    dsimp only
    constructor
    · intro h
      split at h
      · split at h <;> cases h
      · cases h
    · intro h; omega
  · rw [if_neg hp]
    constructor
    · intro _; omega
    · intro _; rfl

/-- The receive callback has no defined result exactly when an attempt is open
and the cursor is at or past the end of the buffer: the store of line 127 is
then outside `jetiFrame`. -/
theorem jetiDataReceive_eq_none_iff (s : State) (c : Nat) :
    jetiDataReceive s c = none ↔
      (s.jetiFrameBegun = true ∧ JETI_FRAME_MAXLEN ≤ s.jetiFramePos) := by
  unfold jetiDataReceive
  dsimp only
  cases hb : s.jetiFrameBegun with
  | false =>
    simp only [Bool.not_false, if_true, Bool.false_eq_true, false_and, iff_false]
    split
    · rw [jetiStore_eq_none_iff]; dsimp only; decide
    · intro h; cases h
  | true =>
    simp only [Bool.not_true, Bool.false_eq_true, if_false, true_and]
    split
    · rw [jetiStore_eq_none_iff]
      split <;> rfl
    · split <;> rw [jetiStore_eq_none_iff]

/-- C12 (the code at the failing input). From the initial state the valid RC
frame `3E 00 07 00 31 66 19` sets `jetiBaudValid`; the bytes `3E 00 00 00 31`
and 65 zero bytes that follow declare the length 0 and leave an attempt open
with the cursor at 70 and the latch still set.  Whatever byte arrives next is
stored at `jetiFrame[70]`, outside the buffer: the call has no defined result,
so nothing holds the latch (or any other static object) from then on. -/
theorem latch_lost_at_overrun :
    ∃ s, feed initState ([0x3E, 0x00, 0x07, 0x00, 0x31, 0x66, 0x19,
        0x3E, 0x00, 0x00, 0x00, 0x31] ++ List.replicate 65 0x00) = some s ∧
      Reachable s ∧ s.jetiBaudValid = true ∧ s.jetiFrameBegun = true ∧
      s.jetiFramePos = 70 ∧ ∀ c, jetiDataReceive s c = none := by
  have hd : (feed initState ([0x3E, 0x00, 0x07, 0x00, 0x31, 0x66, 0x19,
      0x3E, 0x00, 0x00, 0x00, 0x31] ++ List.replicate 65 0x00)).map
      (fun s => (s.jetiBaudValid, s.jetiFrameBegun, s.jetiFramePos))
      = some (true, true, 70) := by decide
  cases h : feed initState ([0x3E, 0x00, 0x07, 0x00, 0x31, 0x66, 0x19,
      0x3E, 0x00, 0x00, 0x00, 0x31] ++ List.replicate 65 0x00) with
  | none => rw [h] at hd; cases hd
  | some s =>
    rw [h] at hd
    simp only [Option.map_some', Option.some.injEq, Prod.mk.injEq] at hd
    obtain ⟨hv, hb, hp⟩ := hd
    refine ⟨s, rfl, reachable_feed _ _ _ Reachable.init h, hv, hb, hp, ?_⟩
    intro c
    rw [jetiDataReceive_eq_none_iff]
    exact ⟨hb, by rw [hp]⟩

/-- C13 (the code at the failing input). From the initial state the bytes `3E
00 02 00 31` and 65 zero bytes declare the length 2 and leave an attempt open
with the cursor at 70 and the completion flag false.  Whatever byte arrives
next is stored at `jetiFrame[70]`, outside the buffer, before any checksum is
run: the call has no defined result, so nothing ties the completion flag
after it to a zero checksum. -/
theorem flag_unguarded_at_overrun :
    ∃ s, feed initState ([0x3E, 0x00, 0x02, 0x00, 0x31] ++ List.replicate 65 0x00) = some s ∧
      Reachable s ∧ s.jetiRcFrameComplete = false ∧ s.jetiFrameBegun = true ∧
      s.jetiFramePos = 70 ∧ s.jetiFrameLen = 2 ∧ ∀ c, jetiDataReceive s c = none := by
  have hd : (feed initState ([0x3E, 0x00, 0x02, 0x00, 0x31] ++ List.replicate 65 0x00)).map
      (fun s => (s.jetiRcFrameComplete, s.jetiFrameBegun, s.jetiFramePos, s.jetiFrameLen))
      = some (false, true, 70, 2) := by decide
  cases h : feed initState ([0x3E, 0x00, 0x02, 0x00, 0x31] ++ List.replicate 65 0x00) with
  | none => rw [h] at hd; cases hd
  | some s =>
    rw [h] at hd
    simp only [Option.map_some', Option.some.injEq, Prod.mk.injEq] at hd
    obtain ⟨hc, hb, hp, hl⟩ := hd
    refine ⟨s, rfl, reachable_feed _ _ _ Reachable.init h, hc, hb, hp, hl, ?_⟩
    intro c
    rw [jetiDataReceive_eq_none_iff]
    exact ⟨hb, by rw [hp]⟩

end JetiEx
